import Mathlib

/-! School finder: filtering, sorting and pagination.

A shallow embedding of `filterSchools`, `checkFeeRange`, `sortSchools`,
`getAverageFee`, `validateFilters` and `getDefaultFilters`
(`src/utils/filterUtils.js`), of the pagination values, `handlePageChange`,
`handleSortChange`, `getPageNumbers`, the pagination controls and the
page-reset effect of the list view (`src/components/SchoolList.jsx`) and of
the filter updates of the sidebar (`src/components/FilterSidebar.jsx`),
together with the runtime primitives they call.

Modelling conventions.

* A JavaScript string is a Lean `String`: a sequence of Unicode scalar values,
  that is, a well-formed UTF-16 string.  `===` on strings is `=`, `includes`
  is contiguous containment, and `<` compares the UTF-16 code units
  (`codeUnits`) lexicographically.
* A JavaScript number is a `JSNumber`: `NaN`, the two infinities, or a finite
  binary64 value held as a rational.  Parsing and arithmetic round to the
  nearest binary64 value, ties to even, with overflow to an infinity
  (`roundDouble`).  A number field of a record holds the value of its binary64
  number as a rational.
* `String.prototype.toLowerCase` depends on the Unicode case tables of the
  runtime.  It is an explicit argument `toLowerCase : String → String` of every
  definition that calls it, and the theorems hold for every such function.
  `asciiLowerCase` is the instance used at concrete inputs.
-/

namespace SchoolFinder

/-! ## Numbers -/

/-- A JavaScript number: `NaN`, `-Infinity`, a finite value, or `Infinity`. -/
inductive JSNumber where
  | nan : JSNumber
  | negInf : JSNumber
  | fin (q : ℚ) : JSNumber
  | posInf : JSNumber
  deriving DecidableEq

/-- Rounding of a non-negative rational to the nearest integer, a tie going to
the even neighbour. -/
def roundHalfEven (x : ℚ) : ℤ :=
  let f := ⌊x⌋
  if x - f < 1 / 2 then f
  else if 1 / 2 < x - f then f + 1
  else if f % 2 = 0 then f else f + 1

/-- The number of halvings that bring `n` below 2, that is `⌊log₂ n⌋` for
`1 ≤ n`; the first argument bounds the number of steps, and `n` steps always
suffice. -/
def log2Floor : ℕ → ℕ → ℕ
  | 0, _ => 0
  | fuel + 1, n => if 2 ≤ n then log2Floor fuel (n / 2) + 1 else 0

/-- The binary exponent of a positive rational `a`: the integer `k` with
`2 ^ k ≤ a < 2 ^ (k + 1)`. -/
def floorLog2 (a : ℚ) : ℤ :=
  let k : ℤ := (log2Floor a.num.natAbs a.num.natAbs : ℤ) - (log2Floor a.den a.den : ℤ)
  if (2 : ℚ) ^ k ≤ a then k else k - 1

/-- The binary64 value of a real number given as a rational: 53 significant
bits (fewer below `2 ^ (-1022)`, where the spacing is `2 ^ (-1074)`), rounded
to nearest with ties to even; a magnitude that rounds to `2 ^ 1024` or more
becomes an infinity. -/
def roundDouble (q : ℚ) : JSNumber :=
  if q = 0 then JSNumber.fin 0
  else
    let e : ℤ := max (floorLog2 |q| - 52) (-1074)
    let r : ℚ := (roundHalfEven (|q| / (2 : ℚ) ^ e) : ℚ) * (2 : ℚ) ^ e
    if (2 : ℚ) ^ (1024 : ℤ) ≤ r then (if 0 < q then JSNumber.posInf else JSNumber.negInf)
    else JSNumber.fin (if 0 < q then r else -r)

namespace JSNumber

/-- The operator `a < b` on numbers; any comparison with `NaN` is false. -/
def lt : JSNumber → JSNumber → Bool
  | nan, _ => false
  | _, nan => false
  | negInf, negInf => false
  | negInf, _ => true
  | fin _, negInf => false
  | fin a, fin b => decide (a < b)
  | fin _, posInf => true
  | posInf, _ => false

/-- The operator `a <= b` on numbers; any comparison with `NaN` is false. -/
def le : JSNumber → JSNumber → Bool
  | nan, _ => false
  | _, nan => false
  | negInf, _ => true
  | fin _, negInf => false
  | fin a, fin b => decide (a ≤ b)
  | fin _, posInf => true
  | posInf, posInf => true
  | posInf, _ => false

/-- The operator `a > b`. -/
def gt (a b : JSNumber) : Bool := lt b a

/-- The operator `a >= b`. -/
def ge (a b : JSNumber) : Bool := le b a

/-- The operator `a + b`. -/
def add : JSNumber → JSNumber → JSNumber
  | nan, _ => nan
  | _, nan => nan
  | negInf, posInf => nan
  | posInf, negInf => nan
  | negInf, _ => negInf
  | _, negInf => negInf
  | posInf, _ => posInf
  | _, posInf => posInf
  | fin a, fin b => roundDouble (a + b)

/-- The expression `a / 2`. -/
def half : JSNumber → JSNumber
  | nan => nan
  | negInf => negInf
  | fin a => roundDouble (a / 2)
  | posInf => posInf

end JSNumber

/-! ## Strings -/

/-- Whether `needle` is an initial segment of `hay`. -/
def startsWith : List Char → List Char → Bool
  | [], _ => true
  | _ :: _, [] => false
  | n :: ns, h :: hs => n == h && startsWith ns hs

/-- Contiguous containment on code-point sequences. -/
def includesList : List Char → List Char → Bool
  | [], needle => needle.isEmpty
  | h :: hs, needle => startsWith needle (h :: hs) || includesList hs needle

/-- The method `hay.includes(needle)`. -/
def includes (hay needle : String) : Bool := includesList hay.toList needle.toList

/-- Lower-casing of the letters `A`–`Z`, every other character unchanged. -/
def asciiLowerCase (s : String) : String := ⟨s.toList.map Char.toLower⟩

/-- The decimal value of a sequence of digits `0`–`9`. -/
def digitsValue (ds : List Char) : ℕ := ds.foldl (fun n c => 10 * n + (c.toNat - 48)) 0

/-- `parseInt(s)` on the strings that reach it in `checkFeeRange`: the
binary64 value of the number written by the leading decimal digits, `NaN` when
there is none.  (After the `replace` the argument holds digits only, so white
space, a sign or a radix prefix cannot occur.) -/
def parseInt (s : String) : JSNumber :=
  let ds := s.toList.takeWhile Char.isDigit
  if ds.isEmpty then JSNumber.nan else roundDouble (digitsValue ds : ℕ)

/-- White space and line terminators stripped by `parseFloat`. -/
def isStrWhiteSpace (c : Char) : Bool :=
  c.toNat ∈ [0x9, 0xA, 0xB, 0xC, 0xD, 0x20, 0xA0, 0x1680, 0x2028, 0x2029, 0x202F, 0x205F,
    0x3000, 0xFEFF] || (0x2000 ≤ c.toNat && c.toNat ≤ 0x200A)

/-- The value of an `ExponentPart` at the head of the input, `0` when the input
does not start with a complete exponent part. -/
def exponentPart : List Char → ℤ
  | [] => 0
  | c :: rest =>
    if c = 'e' ∨ c = 'E' then
      match rest with
      | '+' :: r =>
        let ds := r.takeWhile Char.isDigit
        if ds.isEmpty then 0 else (digitsValue ds : ℤ)
      | '-' :: r =>
        let ds := r.takeWhile Char.isDigit
        if ds.isEmpty then 0 else - (digitsValue ds : ℤ)
      | r =>
        let ds := r.takeWhile Char.isDigit
        if ds.isEmpty then 0 else (digitsValue ds : ℤ)
    else 0

/-- Scale a mantissa by a power of ten. -/
def scale10 (m : ℚ) (e : ℤ) : ℚ :=
  if 0 ≤ e then m * (10 : ℚ) ^ e.toNat else m / (10 : ℚ) ^ (-e).toNat

/-- The longest prefix that is a `StrUnsignedDecimalLiteral`, as a number: the
decimal value it writes, rounded to binary64. -/
def strUnsignedDecimalLiteral (s : List Char) : JSNumber :=
  if startsWith "Infinity".toList s then JSNumber.posInf
  else
    let ip := s.takeWhile Char.isDigit
    let rest := s.dropWhile Char.isDigit
    match rest with
    | '.' :: r =>
      let fp := r.takeWhile Char.isDigit
      let rest2 := r.dropWhile Char.isDigit
      if ip.isEmpty && fp.isEmpty then JSNumber.nan
      else
        roundDouble (scale10 ((digitsValue (ip ++ fp) : ℚ) / (10 : ℚ) ^ fp.length)
          (exponentPart rest2))
    | _ =>
      if ip.isEmpty then JSNumber.nan
      else roundDouble (scale10 (digitsValue ip : ℚ) (exponentPart rest))

/-- The negation of a number. -/
def JSNumber.neg : JSNumber → JSNumber
  | JSNumber.nan => JSNumber.nan
  | JSNumber.negInf => JSNumber.posInf
  | JSNumber.fin a => JSNumber.fin (-a)
  | JSNumber.posInf => JSNumber.negInf

/-- The function `parseFloat(s)`: leading white space is dropped, then the
longest prefix that is a `StrDecimalLiteral` is read; `NaN` when there is no
such prefix. -/
def parseFloat (s : String) : JSNumber :=
  match s.toList.dropWhile isStrWhiteSpace with
  | '+' :: r => strUnsignedDecimalLiteral r
  | '-' :: r => (strUnsignedDecimalLiteral r).neg
  | r => strUnsignedDecimalLiteral r

/-! ## Records and filters -/

/-- A school record (the fields read by the filtering and sorting code). -/
structure School where
  id : ℕ
  name : String
  location : String
  type : String
  gender : String
  curriculum : String
  rating : ℚ
  reviews : ℕ
  established : ℕ
  feeRange : String
  deriving DecidableEq

/-- The filter state: a mapping with the five keys. -/
structure Filters where
  feeRange : String
  schoolType : String
  gender : String
  curriculum : String
  rating : String
  deriving DecidableEq

/-- The function `getDefaultFilters`. -/
def getDefaultFilters : Filters :=
  { feeRange := "", schoolType := "", gender := "", curriculum := "", rating := "" }

/-! ## Fee ranges -/

/-- The character class `[\d,]`. -/
def isFeeChar (c : Char) : Bool := c.isDigit || c == ','

/-- Close a match in progress: `acc` holds, reversed, the characters of
`[\d,]+` read after the rupee sign; nothing is matched when it is empty. -/
def closeMatch (acc : List Char) : List String :=
  if acc.isEmpty then [] else [⟨'₹' :: acc.reverse⟩]

/-- Left-to-right scan for `/₹([\d,]+)/g`.  The state is `none` outside a
match and `some acc` after a rupee sign followed by the class characters `acc`
(reversed). -/
def feeScan : Option (List Char) → List Char → List String
  | none, [] => []
  | some acc, [] => closeMatch acc
  | none, c :: cs => if c = '₹' then feeScan (some []) cs else feeScan none cs
  | some acc, c :: cs =>
    if isFeeChar c then feeScan (some (c :: acc)) cs
    else closeMatch acc ++ (if c = '₹' then feeScan (some []) cs else feeScan none cs)

/-- The call `text.match(/₹([\d,]+)/g)`: all matches in order, `[]` standing
for `null`. -/
def feeMatch (text : String) : List String := feeScan none text.toList

/-- The call `m.replace(/[₹,]/g, '')`. -/
def stripFee (m : String) : String := ⟨m.toList.filter (fun c => !(c == '₹' || c == ','))⟩

/-- The lines of `checkFeeRange` that read the two amounts: `none` when
there are fewer than two matches, else `minFee` and `maxFee`. -/
def parseFees (schoolFeeRange : String) : Option (JSNumber × JSNumber) :=
  match feeMatch schoolFeeRange with
  | m0 :: m1 :: _ => some (parseInt (stripFee m0), parseInt (stripFee m1))
  | _ => none

/-- The function `checkFeeRange`. -/
def checkFeeRange (schoolFeeRange filterFeeRange : String) : Bool :=
  match parseFees schoolFeeRange with
  | none => false
  | some (minFee, maxFee) =>
    let avgFee := (minFee.add maxFee).half
    if filterFeeRange = "low" then avgFee.lt (JSNumber.fin 300000)
    else if filterFeeRange = "medium" then
      avgFee.ge (JSNumber.fin 300000) && avgFee.le (JSNumber.fin 500000)
    else if filterFeeRange = "high" then avgFee.gt (JSNumber.fin 500000)
    else true

/-! ## Filtering -/

/-- The predicate passed to `schools.filter` in `filterSchools`. -/
def matchesSchool (toLowerCase : String → String) (searchQuery selectedLocation : String)
    (filters : Filters) (school : School) : Bool :=
  let matchesSearch := decide (searchQuery = "") ||
    includes (toLowerCase school.name) (toLowerCase searchQuery) ||
    includes (toLowerCase school.location) (toLowerCase searchQuery)
  let matchesLocation := decide (selectedLocation = "") ||
    decide (school.location = selectedLocation)
  let matchesFeeRange := decide (filters.feeRange = "") ||
    checkFeeRange school.feeRange filters.feeRange
  let matchesType := decide (filters.schoolType = "") || decide (school.type = filters.schoolType)
  let matchesGender := decide (filters.gender = "") || decide (school.gender = filters.gender)
  let matchesCurriculum := decide (filters.curriculum = "") ||
    decide (school.curriculum = filters.curriculum)
  let matchesRating := decide (filters.rating = "") ||
    (JSNumber.fin school.rating).ge (parseFloat filters.rating)
  matchesSearch && matchesLocation && matchesFeeRange && matchesType &&
    matchesGender && matchesCurriculum && matchesRating

/-- The function `filterSchools`. -/
def filterSchools (toLowerCase : String → String) (schools : List School)
    (searchQuery selectedLocation : String) (filters : Filters) : List School :=
  schools.filter (matchesSchool toLowerCase searchQuery selectedLocation filters)

/-! ## Sorting -/

/-- The UTF-16 code units of a character: one unit below `U+10000`, a
surrogate pair from there on. -/
def utf16Units (c : Char) : List ℕ :=
  if c.toNat < 0x10000 then [c.toNat]
  else [0xD800 + (c.toNat - 0x10000) / 0x400, 0xDC00 + (c.toNat - 0x10000) % 0x400]

/-- The UTF-16 code units of a string, the sequence that JavaScript indexes
and compares. -/
def codeUnits (s : String) : List ℕ := s.toList.flatMap utf16Units

/-- The operator `a < b` on two strings, given by their code units: the first
position where they differ decides, and a proper initial segment is
smaller. -/
def stringLt : List ℕ → List ℕ → Bool
  | _, [] => false
  | [], _ :: _ => true
  | a :: as, b :: bs => if a = b then stringLt as bs else decide (a < b)

/-- The value a record is sorted by: a number or a string. -/
inductive SortValue where
  | num (q : ℚ) : SortValue
  | str (s : String) : SortValue
  deriving DecidableEq

/-- The operator `a < b` on two sort values: numeric on numbers,
lexicographic by UTF-16 code units on strings.  (Both operands of a comparison
come from the same `case`, so a number is never compared with a string.) -/
def SortValue.lt : SortValue → SortValue → Bool
  | SortValue.num a, SortValue.num b => decide (a < b)
  | SortValue.str a, SortValue.str b => stringLt (codeUnits a) (codeUnits b)
  | _, _ => false

/-- The operator `a > b` on two sort values. -/
def SortValue.gt (a b : SortValue) : Bool := SortValue.lt b a

/-- The `switch (sortBy)` of the comparator: the value of record `a`. -/
def sortValue (toLowerCase : String → String) (sortBy : String) (a : School) : SortValue :=
  if sortBy = "rating" then SortValue.num a.rating
  else if sortBy = "name" then SortValue.str (toLowerCase a.name)
  else if sortBy = "reviews" then SortValue.num a.reviews
  else if sortBy = "established" then SortValue.num a.established
  else SortValue.num a.rating

/-- The comparator passed to `sortedSchools.sort` in `sortSchools`. -/
def compareSchools (toLowerCase : String → String) (sortBy sortOrder : String)
    (a b : School) : ℤ :=
  let aValue := sortValue toLowerCase sortBy a
  let bValue := sortValue toLowerCase sortBy b
  if sortOrder = "asc" then
    if aValue.gt bValue then 1 else -1
  else
    if aValue.lt bValue then 1 else -1

/-! ### `Array.prototype.sort`

The runtime's sort is modelled as V8 runs it on an array of fewer than 64
elements: `CountAndMakeRun` finds the run at the front of the array (reversing
it when it is descending) and `BinaryInsertionSort` inserts the remaining
elements one by one; no merge takes place.  The comparator is consulted only
through the sign of its result. -/

/-- The loop of `CountAndMakeRun`: how many further elements extend the run
that ends in `previousElement`. -/
def countRun {α : Type} (cmp : α → α → ℤ) (isDescending : Bool) : α → List α → ℕ
  | _, [] => 0
  | previousElement, currentElement :: rest =>
    let order := cmp currentElement previousElement
    if isDescending then
      if 0 ≤ order then 0 else countRun cmp isDescending currentElement rest + 1
    else
      if order < 0 then 0 else countRun cmp isDescending currentElement rest + 1

/-- `CountAndMakeRun(0, length)`: the length of the run at the front and the
array after a descending run has been reversed in place. -/
def countAndMakeRun {α : Type} (cmp : α → α → ℤ) : List α → ℕ × List α
  | [] => (0, [])
  | [a] => (1, [a])
  | elementHigh :: elementLow :: rest =>
    let order := cmp elementLow elementHigh
    let isDescending := decide (order < 0)
    let runLength := countRun cmp isDescending elementLow rest + 2
    let workArray := elementHigh :: elementLow :: rest
    if isDescending then
      (runLength, (workArray.take runLength).reverse ++ workArray.drop runLength)
    else (runLength, workArray)

/-- The binary search of `BinaryInsertionSort` for the insertion point of
`pivot` in `workArray[left, right)`.  The first argument bounds the number of
iterations; `right - left` iterations always suffice, since each one shrinks
the interval. -/
def insertionPoint {α : Type} (cmp : α → α → ℤ) (pivot : α) (workArray : List α) :
    ℕ → ℕ → ℕ → ℕ
  | 0, left, _ => left
  | n + 1, left, right =>
    if left < right then
      let mid := left + (right - left) / 2
      match workArray.get? mid with
      | some x =>
        if cmp pivot x < 0 then insertionPoint cmp pivot workArray n left mid
        else insertionPoint cmp pivot workArray n (mid + 1) right
      | none => left
    else left

/-- One round of `BinaryInsertionSort`: `pivot` is moved to its insertion
point in the sorted front `sorted` of the array. -/
def insertPivot {α : Type} (cmp : α → α → ℤ) (sorted : List α) (pivot : α) : List α :=
  let left := insertionPoint cmp pivot sorted sorted.length 0 sorted.length
  sorted.take left ++ pivot :: sorted.drop left

/-- `BinaryInsertionSort(0, start, length)`: `sorted` is `workArray[0, start)`
and the second list is `workArray[start, length)`. -/
def binaryInsertionSort {α : Type} (cmp : α → α → ℤ) : List α → List α → List α
  | sorted, [] => sorted
  | sorted, pivot :: rest => binaryInsertionSort cmp (insertPivot cmp sorted pivot) rest

/-- The call `array.sort(cmp)`, returning the sorted array. -/
def arraySort {α : Type} (cmp : α → α → ℤ) (array : List α) : List α :=
  if array.length < 2 then array
  else
    let run := countAndMakeRun cmp array
    binaryInsertionSort cmp (run.2.take run.1) (run.2.drop run.1)

/-- The function `sortSchools`: the comparator applied to a copy of the input. -/
def sortSchools (toLowerCase : String → String) (schools : List School)
    (sortBy sortOrder : String) : List School :=
  arraySort (compareSchools toLowerCase sortBy sortOrder) schools

/-! ## Specification-side predicates (spec §4.1) -/

/-- `hay` contains `needle` as a contiguous block of characters. -/
def Contains (hay needle : String) : Prop :=
  ∃ before after : List Char, hay.toList = before ++ needle.toList ++ after

/-- The amount written after a rupee sign: the following group of digits and
thousands separators, read as a decimal number with the separators dropped;
`none` when the group holds no digit. -/
def amountAfterRupee (cs : List Char) : Option ℕ :=
  let group := cs.takeWhile (fun c => c.isDigit || c == ',')
  let digits := group.filter Char.isDigit
  if digits.isEmpty then none else some (digitsValue digits)

/-- The currency magnitudes of a fee text, in order: every rupee sign that is
followed by an amount contributes that amount. -/
def feeAmountsFrom : List Char → List ℕ
  | [] => []
  | c :: cs =>
    if c = '₹' then
      match amountAfterRupee cs with
      | some n => n :: feeAmountsFrom cs
      | none => feeAmountsFrom cs
    else feeAmountsFrom cs

/-- The currency magnitudes of a fee text. -/
def feeAmounts (text : String) : List ℕ := feeAmountsFrom text.toList

/-- Fee-range match (spec §4.1): the filter is empty, or the text parses into
two amounts `(low, high)` (parsing fails when it holds fewer than two) and
`mean = (low + high) / 2` is in the bucket that the filter names: `low` means
`mean < 300000`, `medium` means `300000 ≤ mean ≤ 500000`, `high` means
`mean > 500000`. -/
def FeeRangeMatch (r : School) (feeFilter : String) : Prop :=
  feeFilter = "" ∨ ∃ (low high : ℕ) (rest : List ℕ),
    feeAmounts r.feeRange = low :: high :: rest ∧
    (feeFilter = "low" → ((low : ℚ) + high) / 2 < 300000) ∧
    (feeFilter = "medium" → 300000 ≤ ((low : ℚ) + high) / 2 ∧
      ((low : ℚ) + high) / 2 ≤ 500000) ∧
    (feeFilter = "high" → 500000 < ((low : ℚ) + high) / 2)

/-! ## The list view (`src/components/SchoolList.jsx`)

Page numbers, indices and counts are integers (`ℤ`); `Math.ceil` and
`Math.floor` are the integer ceiling and floor of an exact quotient. -/

/-- An index argument of `slice`, made relative to an array of length `len`:
a negative index counts from the end, and the result is clamped to
`[0, len]`. -/
def sliceIndex (len : ℕ) (i : ℤ) : ℕ :=
  if i < 0 then (len + i).toNat else min i.toNat len

/-- The call `array.slice(start, finish)`. -/
def slice {α : Type} (array : List α) (start finish : ℤ) : List α :=
  let k := sliceIndex array.length start
  let final := sliceIndex array.length finish
  (array.drop k).take (final - k)

/-- The constant `SCHOOLS_PER_PAGE`. -/
def SCHOOLS_PER_PAGE : ℤ := 12

/-- `totalPages = Math.ceil(sortedSchools.length / SCHOOLS_PER_PAGE)`, as a
function of the length. -/
def totalPages (length : ℕ) : ℤ := ⌈(length : ℚ) / (SCHOOLS_PER_PAGE : ℚ)⌉

/-- `startIndex = (currentPage - 1) * SCHOOLS_PER_PAGE`. -/
def startIndex (currentPage : ℤ) : ℤ := (currentPage - 1) * SCHOOLS_PER_PAGE

/-- `endIndex = startIndex + SCHOOLS_PER_PAGE`. -/
def endIndex (currentPage : ℤ) : ℤ := startIndex currentPage + SCHOOLS_PER_PAGE

/-- `currentSchools = sortedSchools.slice(startIndex, endIndex)`. -/
def currentSchools (sortedSchools : List School) (currentPage : ℤ) : List School :=
  slice sortedSchools (startIndex currentPage) (endIndex currentPage)

/-- The upper end of the range shown in the results header,
`Math.min(endIndex, sortedSchools.length)`. -/
def shownEnd (length : ℕ) (currentPage : ℤ) : ℤ := min (endIndex currentPage) length

/-- The pagination values computed in the body of `SchoolList`. -/
structure PageValues where
  pageItems : List School
  totalPages : ℤ
  startIndex : ℤ
  endIndex : ℤ
  shownEnd : ℤ
  deriving DecidableEq

/-- The pagination values of `SchoolList` for a sorted list and a current
page. -/
def pageValues (sortedSchools : List School) (currentPage : ℤ) : PageValues :=
  { pageItems := currentSchools sortedSchools currentPage
    totalPages := totalPages sortedSchools.length
    startIndex := startIndex currentPage
    endIndex := endIndex currentPage
    shownEnd := shownEnd sortedSchools.length currentPage }

/-- The function `handlePageChange`, as the current page after the call (the
scrolling of the window is not modelled). -/
def handlePageChange (totalPages currentPage page : ℤ) : ℤ :=
  if 1 ≤ page ∧ page ≤ totalPages then page else currentPage

/-- The loop `for (let i = first; i <= last; i++) pages.push(i)`. -/
def pushPages (first last : ℤ) : List ℤ :=
  (List.range (last + 1 - first).toNat).map (fun k : ℕ => first + k)

/-- The function `getPageNumbers`, for the `totalPages` and `currentPage` of
the enclosing component. -/
def getPageNumbers (totalPages currentPage : ℤ) : List ℤ :=
  let maxVisiblePages : ℤ := 5
  if totalPages ≤ maxVisiblePages then pushPages 1 totalPages
  else
    let startPage := max 1 (currentPage - ⌊(maxVisiblePages : ℚ) / 2⌋)
    let endPage := min totalPages (startPage + maxVisiblePages - 1)
    let startPage :=
      if endPage - startPage < maxVisiblePages - 1 then max 1 (endPage - maxVisiblePages + 1)
      else startPage
    pushPages startPage endPage

/-! ## The filter state as an object (`src/components/FilterSidebar.jsx`) -/

/-- An object with string values: its own properties in insertion order. -/
abbrev JSObject := List (String × String)

/-- The own keys of an object. -/
def JSObject.keys (o : JSObject) : List String := o.map Prod.fst

/-- The expression `key in o`. -/
def JSObject.has (o : JSObject) (key : String) : Bool := o.any (fun p => p.1 == key)

/-- The value `o[key]`, `none` for `undefined`. -/
def JSObject.get (o : JSObject) (key : String) : Option String :=
  (o.find? (fun p => p.1 == key)).map Prod.snd

/-- The object `{ ...o, [key]: value }`: an existing property keeps its place
and takes the new value, a new property is added at the end. -/
def JSObject.set (o : JSObject) (key value : String) : JSObject :=
  if o.has key then o.map (fun p => if p.1 == key then (p.1, value) else p)
  else o ++ [(key, value)]

/-- The object that a `Filters` value stands for, keys in the order of the
literal in `getDefaultFilters`. -/
def Filters.toObject (f : Filters) : JSObject :=
  [("feeRange", f.feeRange), ("schoolType", f.schoolType), ("gender", f.gender),
    ("curriculum", f.curriculum), ("rating", f.rating)]

/-- The array `validFilterKeys` of `validateFilters`. -/
def validFilterKeys : List String := ["feeRange", "schoolType", "gender", "curriculum", "rating"]

/-- The function `validateFilters`. -/
def validateFilters (filters : JSObject) : Bool :=
  validFilterKeys.all (fun key => filters.has key)

/-- The updater of `handleFilterChange`: the next filter state from the
previous one. -/
def handleFilterChange (prevFilters : JSObject) (filterKey value : String) : JSObject :=
  prevFilters.set filterKey value

/-- The state set by `clearAllFilters`. -/
def clearAllFilters : JSObject :=
  [("feeRange", ""), ("schoolType", ""), ("gender", ""), ("curriculum", ""), ("rating", "")]

/-- The function `getAverageFee`. -/
def getAverageFee (feeRange : String) : JSNumber :=
  match parseFees feeRange with
  | none => JSNumber.fin 0
  | some (minFee, maxFee) => (minFee.add maxFee).half

/-! ## The pagination controls and the state of the list view -/

/-- The comparison `x > n` for an array element `x` that is `undefined` when
the index is out of range; a comparison with `undefined` is false. -/
def elementGt (x : Option ℤ) (n : ℤ) : Bool :=
  match x with
  | some v => decide (n < v)
  | none => false

/-- The comparison `x < n` for an array element `x`, false for `undefined`. -/
def elementLt (x : Option ℤ) (n : ℤ) : Bool :=
  match x with
  | some v => decide (v < n)
  | none => false

/-- What the pagination block renders around the page buttons. -/
structure PaginationControls where
  firstShortcut : Bool
  firstEllipsis : Bool
  pageButtons : List ℤ
  lastEllipsis : Bool
  lastShortcut : Bool
  deriving DecidableEq

/-- The block `{totalPages > 1 && (...)}` of `SchoolList`: `none` when the
controls are not rendered.  An ellipsis is nested inside the fragment of its
shortcut, so it is rendered only together with that shortcut. -/
def paginationControls (totalPages currentPage : ℤ) : Option PaginationControls :=
  if 1 < totalPages then
    let pages := getPageNumbers totalPages currentPage
    some
      { firstShortcut := elementGt pages[0]? 1
        firstEllipsis := elementGt pages[0]? 1 && elementGt pages[0]? 2
        pageButtons := pages
        lastEllipsis := elementLt pages[pages.length - 1]? totalPages &&
          elementLt pages[pages.length - 1]? (totalPages - 1)
        lastShortcut := elementLt pages[pages.length - 1]? totalPages }
  else none

/-- The `schools` prop of `SchoolList`: an array with its identity.  React
compares effect dependencies with `Object.is`, which on arrays is identity. -/
structure SchoolsProp where
  ref : ℕ
  items : List School
  deriving DecidableEq

/-- The state of the list view: the `schools` prop and the three state
variables `sortBy`, `sortOrder`, `currentPage`. -/
structure ViewState where
  schools : SchoolsProp
  sortBy : String
  sortOrder : String
  currentPage : ℤ
  deriving DecidableEq

/-- The state at mount: `useState('rating')`, `useState('desc')`,
`useState(1)`. -/
def initialView (schools : SchoolsProp) : ViewState :=
  { schools := schools, sortBy := "rating", sortOrder := "desc", currentPage := 1 }

/-- The function `handleSortChange`, as the sort key and order after the
call. -/
def handleSortChange (sortBy sortOrder newSortBy : String) : String × String :=
  if sortBy = newSortBy then (sortBy, if sortOrder = "asc" then "desc" else "asc")
  else (newSortBy, "desc")

/-- What can happen to the list view: the parent passes a `schools` array, the
sort key is chosen, the order button is pressed, a page is requested. -/
inductive ViewEvent where
  | receiveSchools (schools : SchoolsProp) : ViewEvent
  | sortChange (newSortBy : String) : ViewEvent
  | toggleOrder : ViewEvent
  | pageChange (page : ℤ) : ViewEvent

/-- The state after the handler of an event has run, before effects. -/
def handleEvent (toLowerCase : String → String) (s : ViewState) : ViewEvent → ViewState
  | ViewEvent.receiveSchools schools => { s with schools := schools }
  | ViewEvent.sortChange newSortBy =>
    { s with
      sortBy := (handleSortChange s.sortBy s.sortOrder newSortBy).1
      sortOrder := (handleSortChange s.sortBy s.sortOrder newSortBy).2 }
  | ViewEvent.toggleOrder =>
    { s with sortOrder := if s.sortOrder = "asc" then "desc" else "asc" }
  | ViewEvent.pageChange page =>
    { s with
      currentPage := handlePageChange
        (totalPages (sortSchools toLowerCase s.schools.items s.sortBy s.sortOrder).length)
        s.currentPage page }

/-- The effect `useEffect(() => setCurrentPage(1), [schools, sortBy,
sortOrder])`: it runs after a render in which a dependency differs from the
previous render. -/
def resetPageEffect (previous next : ViewState) : ViewState :=
  if next.schools.ref ≠ previous.schools.ref ∨ next.sortBy ≠ previous.sortBy ∨
      next.sortOrder ≠ previous.sortOrder then
    { next with currentPage := 1 }
  else next

/-- One step of the list view: the handler, then the effect. -/
def viewStep (toLowerCase : String → String) (s : ViewState) (e : ViewEvent) : ViewState :=
  resetPageEffect s (handleEvent toLowerCase s e)

/-! ## Lemmas on binary64 rounding -/

theorem log2Floor_spec (fuel n : ℕ) (hfuel : n ≤ fuel) (hn : 1 ≤ n) :
    2 ^ log2Floor fuel n ≤ n ∧ n < 2 ^ (log2Floor fuel n + 1) := by
  induction fuel generalizing n with
  | zero => omega
  | succ fuel ih =>
    unfold log2Floor
    split_ifs with h2
    · have hm := ih (n / 2) (by omega) (by omega)
      rw [pow_succ, pow_succ]
      constructor <;> omega
    · have : n = 1 := by omega
      subst this
      simp

/-- The binary exponent brackets a positive rational between two consecutive
powers of two. -/
theorem floorLog2_spec (a : ℚ) (ha : 0 < a) :
    (2 : ℚ) ^ floorLog2 a ≤ a ∧ a < (2 : ℚ) ^ (floorLog2 a + 1) := by
  have hnum : 0 < a.num := Rat.num_pos.mpr ha
  have hnat : 1 ≤ a.num.natAbs := by omega
  have hden : 1 ≤ a.den := a.den_pos
  obtain ⟨hp1, hp2⟩ := log2Floor_spec a.num.natAbs a.num.natAbs le_rfl hnat
  obtain ⟨hq1, hq2⟩ := log2Floor_spec a.den a.den le_rfl hden
  generalize hpdef : log2Floor a.num.natAbs a.num.natAbs = p at hp1 hp2
  generalize hqdef : log2Floor a.den a.den = q at hq1 hq2
  have hdenpos : (0 : ℚ) < a.den := by exact_mod_cast hden
  have ha_eq : a = (a.num.natAbs : ℚ) / (a.den : ℚ) := by
    have h1 : ((a.num.natAbs : ℤ) : ℚ) = (a.num : ℚ) := by
      rw [Int.natAbs_of_nonneg hnum.le]
    have h2 : (a.num.natAbs : ℚ) = (a.num : ℚ) := by
      rw [← h1, Int.cast_natCast]
    rw [h2]
    exact (Rat.num_div_den a).symm
  have hP1 : (2 : ℚ) ^ p ≤ (a.num.natAbs : ℚ) := by exact_mod_cast hp1
  have hP2 : (a.num.natAbs : ℚ) < (2 : ℚ) ^ (p + 1) := by exact_mod_cast hp2
  have hQ1 : (2 : ℚ) ^ q ≤ (a.den : ℚ) := by exact_mod_cast hq1
  have hQ2 : (a.den : ℚ) < (2 : ℚ) ^ (q + 1) := by exact_mod_cast hq2
  have h2pos : ∀ k : ℤ, (0 : ℚ) < (2 : ℚ) ^ k := fun k => zpow_pos (by norm_num) k
  have hzp : ∀ n : ℕ, (2 : ℚ) ^ (n : ℤ) = (2 : ℚ) ^ n := fun n => zpow_natCast 2 n
  have hsub : ∀ x y : ℤ, (2 : ℚ) ^ (x - y) = (2 : ℚ) ^ x / (2 : ℚ) ^ y :=
    fun x y => zpow_sub₀ (by norm_num) x y
  have hadd1 : ∀ x : ℤ, (2 : ℚ) ^ (x + 1) = (2 : ℚ) ^ x * 2 := fun x => by
    rw [zpow_add₀ (by norm_num : (2 : ℚ) ≠ 0), zpow_one]
  -- the two outer bounds on `a`
  have hupper : a < (2 : ℚ) ^ ((p : ℤ) - (q : ℤ) + 1) := by
    rw [hadd1, hsub, hzp, hzp, ha_eq, div_lt_iff₀ hdenpos]
    have hpp : (0 : ℚ) < (2 : ℚ) ^ q := by positivity
    have hstep : (2 : ℚ) ^ p / (2 : ℚ) ^ q * 2 * (a.den : ℚ) ≥ (2 : ℚ) ^ p * 2 := by
      rw [ge_iff_le, div_mul_eq_mul_div, div_mul_eq_mul_div, le_div_iff₀ hpp]
      nlinarith [hQ1, pow_pos (by norm_num : (0 : ℚ) < 2) p]
    rw [pow_succ] at hP2
    linarith
  have hlower : (2 : ℚ) ^ ((p : ℤ) - (q : ℤ) - 1) < a := by
    have : (2 : ℚ) ^ ((p : ℤ) - (q : ℤ) - 1) = (2 : ℚ) ^ p / ((2 : ℚ) ^ q * 2) := by
      rw [show (p : ℤ) - (q : ℤ) - 1 = (p : ℤ) - ((q : ℤ) + 1) by ring, hsub, hadd1, hzp, hzp]
    rw [this, ha_eq, div_lt_div_iff₀ (by positivity) hdenpos]
    rw [pow_succ] at hQ2
    nlinarith [hP1, hQ2, pow_pos (by norm_num : (0 : ℚ) < 2) p]
  unfold floorLog2
  rw [hqdef, hpdef]
  dsimp only
  split_ifs with hle
  · exact ⟨hle, hupper⟩
  · refine ⟨hlower.le, ?_⟩
    rw [sub_add_cancel]
    exact not_le.mp hle

theorem roundHalfEven_intCast (z : ℤ) : roundHalfEven (z : ℚ) = z := by
  simp [roundHalfEven]

theorem floor_le_roundHalfEven (x : ℚ) : ⌊x⌋ ≤ roundHalfEven x := by
  unfold roundHalfEven
  dsimp only
  split_ifs <;> omega

/-- A rational `n / 2 ^ j` with `n < 2 ^ 53` and `j ≤ 1074` is a binary64
value: rounding leaves it unchanged. -/
theorem roundDouble_dyadic (n j : ℕ) (hn : n < 2 ^ 53) (hj : j ≤ 1074) :
    roundDouble ((n : ℚ) / (2 : ℚ) ^ j) = JSNumber.fin ((n : ℚ) / (2 : ℚ) ^ j) := by
  have h2pos : ∀ k : ℤ, (0 : ℚ) < (2 : ℚ) ^ k := fun k => zpow_pos (by norm_num) k
  by_cases hn0 : n = 0
  · subst hn0
    simp [roundDouble]
  have hnpos : (0 : ℚ) < (n : ℚ) := by exact_mod_cast Nat.pos_of_ne_zero hn0
  have hapos : (0 : ℚ) < (n : ℚ) / (2 : ℚ) ^ j := by positivity
  set a : ℚ := (n : ℚ) / (2 : ℚ) ^ j with ha
  obtain ⟨hlo, -⟩ := floorLog2_spec a hapos
  -- the exponent is at most `52 - j`
  have hlt : a < (2 : ℚ) ^ ((53 : ℤ) - (j : ℤ)) := by
    rw [zpow_sub₀ (by norm_num : (2 : ℚ) ≠ 0), zpow_natCast, ha,
      div_lt_div_iff_of_pos_right (by positivity)]
    exact_mod_cast hn
  have hfl : floorLog2 a < 53 - (j : ℤ) :=
    (zpow_lt_zpow_iff_right₀ (by norm_num : (1 : ℚ) < 2)).mp (lt_of_le_of_lt hlo hlt)
  have he : max (floorLog2 a - 52) (-1074) ≤ -(j : ℤ) := by
    apply max_le <;> omega
  generalize hedef : max (floorLog2 a - 52) (-1074) = e at he
  -- `a / 2 ^ e` is a natural number
  obtain ⟨d, hd⟩ : ∃ d : ℕ, -(j : ℤ) - e = d := ⟨(-(j : ℤ) - e).toNat, by omega⟩
  have hquot : a / (2 : ℚ) ^ e = (((n * 2 ^ d : ℕ) : ℤ) : ℚ) := by
    have he' : e = -(j : ℤ) - d := by omega
    rw [he', ha, zpow_sub₀ (by norm_num : (2 : ℚ) ≠ 0), zpow_neg, zpow_natCast, zpow_natCast]
    push_cast
    field_simp
    ring
  have hne : a ≠ 0 := ne_of_gt hapos
  have hback : (((n * 2 ^ d : ℕ) : ℤ) : ℚ) * (2 : ℚ) ^ e = a := by
    rw [← hquot]
    exact div_mul_cancel₀ a (ne_of_gt (h2pos e))
  have hsmall : a < (2 : ℚ) ^ (1024 : ℤ) := by
    have h53 : (2 : ℚ) ^ ((53 : ℤ) - (j : ℤ)) ≤ (2 : ℚ) ^ (1024 : ℤ) :=
      zpow_le_zpow_right₀ (by norm_num) (by omega)
    linarith
  unfold roundDouble
  rw [if_neg hne, abs_of_pos hapos]
  dsimp only
  rw [hedef, hquot, roundHalfEven_intCast, hback, if_neg (not_le.mpr hsmall), if_pos hapos]

theorem roundDouble_natCast (n : ℕ) (hn : n < 2 ^ 53) :
    roundDouble (n : ℚ) = JSNumber.fin n := by
  have h := roundDouble_dyadic n 0 hn (by norm_num)
  simpa using h

/-- Rounding does not drop a value below a power of two that it reaches. -/
theorem roundDouble_of_le (k : ℤ) (hk : -1022 ≤ k) (a : ℚ) (h : (2 : ℚ) ^ k ≤ a) :
    roundDouble a = JSNumber.posInf ∨ ∃ y : ℚ, roundDouble a = JSNumber.fin y ∧ (2 : ℚ) ^ k ≤ y := by
  have h2pos : ∀ k : ℤ, (0 : ℚ) < (2 : ℚ) ^ k := fun k => zpow_pos (by norm_num) k
  have hapos : 0 < a := lt_of_lt_of_le (h2pos k) h
  obtain ⟨hlo, hhi⟩ := floorLog2_spec a hapos
  have hfl : k < floorLog2 a + 1 :=
    (zpow_lt_zpow_iff_right₀ (by norm_num : (1 : ℚ) < 2)).mp (lt_of_le_of_lt h hhi)
  have he : max (floorLog2 a - 52) (-1074) = floorLog2 a - 52 := max_eq_left (by omega)
  generalize hfdef : floorLog2 a = f at *
  have hq : (2 : ℚ) ^ (52 : ℤ) ≤ a / (2 : ℚ) ^ (f - 52) := by
    rw [le_div_iff₀ (h2pos _), ← zpow_add₀ (by norm_num : (2 : ℚ) ≠ 0)]
    have : (52 : ℤ) + (f - 52) = f := by ring
    rw [this]
    exact hlo
  have hfloor : ((2 ^ 52 : ℕ) : ℤ) ≤ ⌊a / (2 : ℚ) ^ (f - 52)⌋ := by
    rw [Int.le_floor]
    have : (((2 ^ 52 : ℕ) : ℤ) : ℚ) = (2 : ℚ) ^ (52 : ℤ) := by norm_num
    rw [this]
    exact hq
  have hm : ((2 ^ 52 : ℕ) : ℤ) ≤ roundHalfEven (a / (2 : ℚ) ^ (f - 52)) :=
    le_trans hfloor (floor_le_roundHalfEven _)
  have hr : (2 : ℚ) ^ k ≤ (roundHalfEven (a / (2 : ℚ) ^ (f - 52)) : ℚ) * (2 : ℚ) ^ (f - 52) := by
    have hm' : (2 : ℚ) ^ (52 : ℤ) ≤ (roundHalfEven (a / (2 : ℚ) ^ (f - 52)) : ℚ) := by
      have : ((((2 ^ 52 : ℕ) : ℤ)) : ℚ) ≤ (roundHalfEven (a / (2 : ℚ) ^ (f - 52)) : ℚ) := by
        exact_mod_cast hm
      have h52 : (((2 ^ 52 : ℕ) : ℤ) : ℚ) = (2 : ℚ) ^ (52 : ℤ) := by norm_num
      rw [h52] at this
      exact this
    have hkf : (2 : ℚ) ^ k ≤ (2 : ℚ) ^ f := zpow_le_zpow_right₀ (by norm_num) (by omega)
    have hsplit : (2 : ℚ) ^ f = (2 : ℚ) ^ (52 : ℤ) * (2 : ℚ) ^ (f - 52) := by
      rw [← zpow_add₀ (by norm_num : (2 : ℚ) ≠ 0)]
      congr 1
      ring
    calc (2 : ℚ) ^ k ≤ (2 : ℚ) ^ f := hkf
      _ = (2 : ℚ) ^ (52 : ℤ) * (2 : ℚ) ^ (f - 52) := hsplit
      _ ≤ _ := mul_le_mul_of_nonneg_right hm' (h2pos _).le
  unfold roundDouble
  rw [if_neg (ne_of_gt hapos), abs_of_pos hapos]
  dsimp only
  rw [hfdef, he]
  split_ifs with hbig
  · exact Or.inl rfl
  · exact Or.inr ⟨_, rfl, hr⟩

/-! ## Lemmas on strings -/

theorem startsWith_iff (needle hay : List Char) :
    startsWith needle hay = true ↔ ∃ after, hay = needle ++ after := by
  induction needle generalizing hay with
  | nil => simp [startsWith]
  | cons n ns ih =>
    cases hay with
    | nil => simp [startsWith]
    | cons h hs =>
      simp only [startsWith, Bool.and_eq_true, beq_iff_eq, ih, List.cons_append,
        List.cons.injEq]
      constructor
      · rintro ⟨rfl, after, rfl⟩
        exact ⟨after, rfl, rfl⟩
      · rintro ⟨after, rfl, rfl⟩
        exact ⟨rfl, after, rfl⟩

theorem includesList_iff (hay needle : List Char) :
    includesList hay needle = true ↔ ∃ before after, hay = before ++ needle ++ after := by
  induction hay with
  | nil =>
    simp only [includesList, List.isEmpty_iff]
    constructor
    · rintro rfl
      exact ⟨[], [], rfl⟩
    · rintro ⟨before, after, h⟩
      have h2 := congrArg List.length h
      simp only [List.length_nil, List.length_append] at h2
      exact List.length_eq_zero.mp (by omega)
  | cons h hs ih =>
    simp only [includesList, Bool.or_eq_true, startsWith_iff, ih]
    constructor
    · rintro (⟨after, hh⟩ | ⟨before, after, hh⟩)
      · exact ⟨[], after, by simpa using hh⟩
      · exact ⟨h :: before, after, by simp [hh]⟩
    · rintro ⟨before, after, hh⟩
      cases before with
      | nil => exact Or.inl ⟨after, by simpa using hh⟩
      | cons b bs =>
        simp only [List.cons_append, List.cons.injEq] at hh
        exact Or.inr ⟨bs, after, hh.2⟩

theorem includes_iff (hay needle : String) :
    includes hay needle = true ↔ Contains hay needle :=
  includesList_iff _ _

/-! ## Lemmas on `checkFeeRange` and the filter predicate -/

/-- `checkFeeRange` for the three bucket tokens and for any other token, in
terms of the parsed amounts. -/
theorem checkFeeRange_of_parse (text : String) (minFee maxFee : JSNumber)
    (h : parseFees text = some (minFee, maxFee)) :
    checkFeeRange text "low" = ((minFee.add maxFee).half).lt (JSNumber.fin 300000) ∧
      checkFeeRange text "medium" =
        (((minFee.add maxFee).half).ge (JSNumber.fin 300000) &&
          ((minFee.add maxFee).half).le (JSNumber.fin 500000)) ∧
      checkFeeRange text "high" = ((minFee.add maxFee).half).gt (JSNumber.fin 500000) ∧
      (∀ token : String, token ≠ "low" → token ≠ "medium" → token ≠ "high" →
        checkFeeRange text token = true) := by
  have h1 : ¬ ("medium" = "low") := by decide
  have h2 : ¬ ("high" = "low") := by decide
  have h3 : ¬ ("high" = "medium") := by decide
  refine ⟨?_, ?_, ?_, ?_⟩
  · simp [checkFeeRange, h]
  · simp [checkFeeRange, h, h1]
  · simp [checkFeeRange, h, h2, h3]
  · intro token hl hm hh
    simp [checkFeeRange, h, hl, hm, hh]

theorem parseInt_cases (s : String) :
    parseInt s = JSNumber.nan ∨ ∃ n : ℕ, parseInt s = roundDouble (n : ℚ) := by
  unfold parseInt
  dsimp only
  split_ifs
  · exact Or.inl rfl
  · exact Or.inr ⟨_, rfl⟩

/-- Two finite parsed amounts are the binary64 values of two natural
numbers. -/
theorem parseFees_fin (text : String) (low high : ℚ)
    (h : parseFees text = some (JSNumber.fin low, JSNumber.fin high)) :
    ∃ n m : ℕ, roundDouble (n : ℚ) = JSNumber.fin low ∧
      roundDouble (m : ℚ) = JSNumber.fin high := by
  unfold parseFees at h
  split at h
  · rename_i m0 m1 rest _
    have h0 : parseInt (stripFee m0) = JSNumber.fin low := by
      injection h with h
      exact congrArg Prod.fst h
    have h1 : parseInt (stripFee m1) = JSNumber.fin high := by
      injection h with h
      exact congrArg Prod.snd h
    rcases parseInt_cases (stripFee m0) with hn | ⟨n, hn⟩
    · rw [hn] at h0
      exact JSNumber.noConfusion h0
    rcases parseInt_cases (stripFee m1) with hm | ⟨m, hm⟩
    · rw [hm] at h1
      exact JSNumber.noConfusion h1
    exact ⟨n, m, hn ▸ h0, hm ▸ h1⟩
  · exact Option.noConfusion h

/-- The binary64 value of a natural number is the number itself below
`2 ^ 53`, and at least `2 ^ 53` from there on. -/
theorem roundDouble_natCast_cases (n : ℕ) (x : ℚ)
    (h : roundDouble (n : ℚ) = JSNumber.fin x) :
    (n < 2 ^ 53 ∧ x = (n : ℚ)) ∨ (2 : ℚ) ^ (53 : ℤ) ≤ x := by
  by_cases hn : n < 2 ^ 53
  · left
    rw [roundDouble_natCast n hn] at h
    exact ⟨hn, (JSNumber.fin.inj h).symm⟩
  · right
    have hle : (2 : ℚ) ^ (53 : ℤ) ≤ (n : ℚ) := by
      have h53 : ((2 ^ 53 : ℕ) : ℚ) ≤ (n : ℚ) := by exact_mod_cast not_lt.mp hn
      have h2 : (2 : ℚ) ^ (53 : ℤ) = ((2 ^ 53 : ℕ) : ℚ) := by norm_num
      rw [h2]
      exact h53
    rcases roundDouble_of_le 53 (by norm_num) (n : ℚ) hle with hinf | ⟨y, hy, hyle⟩
    · rw [hinf] at h
      exact JSNumber.noConfusion h
    · rw [hy] at h
      rw [← JSNumber.fin.inj h]
      exact hyle

/-- The average `(minFee + maxFee) / 2` computed in binary64 from two finite
amounts: it is the exact mean when the sum is below `2 ^ 53`; otherwise the
exact mean and the computed one are both at least `2 ^ 51`. -/
theorem half_add_cases (n m : ℕ) (low high : ℚ)
    (hl : roundDouble (n : ℚ) = JSNumber.fin low)
    (hh : roundDouble (m : ℚ) = JSNumber.fin high) :
    ((JSNumber.fin low).add (JSNumber.fin high)).half = JSNumber.fin ((low + high) / 2) ∨
      ((2 : ℚ) ^ (51 : ℤ) ≤ (low + high) / 2 ∧
        (((JSNumber.fin low).add (JSNumber.fin high)).half = JSNumber.posInf ∨
          ∃ z : ℚ, ((JSNumber.fin low).add (JSNumber.fin high)).half = JSNumber.fin z ∧
            (2 : ℚ) ^ (51 : ℤ) ≤ z)) := by
  have hadd : (JSNumber.fin low).add (JSNumber.fin high) = roundDouble (low + high) := rfl
  have h51 : (2 : ℚ) ^ (51 : ℤ) = 2251799813685248 := by norm_num
  have h52 : (2 : ℚ) ^ (52 : ℤ) = 4503599627370496 := by norm_num
  have h53 : (2 : ℚ) ^ (53 : ℤ) = 9007199254740992 := by norm_num
  have hbig : (2 : ℚ) ^ (52 : ℤ) ≤ low + high →
      ((2 : ℚ) ^ (51 : ℤ) ≤ (low + high) / 2 ∧
        (((JSNumber.fin low).add (JSNumber.fin high)).half = JSNumber.posInf ∨
          ∃ z : ℚ, ((JSNumber.fin low).add (JSNumber.fin high)).half = JSNumber.fin z ∧
            (2 : ℚ) ^ (51 : ℤ) ≤ z)) := by
    intro hsum
    refine ⟨by rw [h51]; rw [h52] at hsum; linarith, ?_⟩
    rw [hadd]
    rcases roundDouble_of_le 52 (by norm_num) (low + high) hsum with hinf | ⟨y, hy, hyle⟩
    · left
      rw [hinf]
      rfl
    · rw [hy]
      have hhalf : (JSNumber.fin y).half = roundDouble (y / 2) := rfl
      rw [hhalf]
      have hy2 : (2 : ℚ) ^ (51 : ℤ) ≤ y / 2 := by
        rw [h51]
        rw [h52] at hyle
        linarith
      rcases roundDouble_of_le 51 (by norm_num) (y / 2) hy2 with hinf | ⟨z, hz, hzle⟩
      · exact Or.inl hinf
      · exact Or.inr ⟨z, hz, hzle⟩
  have hnn : (0 : ℚ) ≤ (n : ℚ) := Nat.cast_nonneg n
  have hmn : (0 : ℚ) ≤ (m : ℚ) := Nat.cast_nonneg m
  rcases roundDouble_natCast_cases n low hl with ⟨hn, hlow⟩ | hlow
  · rcases roundDouble_natCast_cases m high hh with ⟨hm, hhigh⟩ | hhigh
    · by_cases hs : n + m < 2 ^ 53
      · left
        have hsum : low + high = ((n + m : ℕ) : ℚ) := by
          rw [hlow, hhigh]
          push_cast
          rfl
        rw [hadd, hsum, roundDouble_natCast (n + m) hs]
        have hhalf : (JSNumber.fin ((n + m : ℕ) : ℚ)).half =
            roundDouble (((n + m : ℕ) : ℚ) / (2 : ℚ) ^ 1) := by
          rw [pow_one]
          rfl
        rw [hhalf, roundDouble_dyadic (n + m) 1 hs (by norm_num), pow_one]
      · right
        apply hbig
        have hs' : ((2 ^ 53 : ℕ) : ℚ) ≤ ((n + m : ℕ) : ℚ) := by exact_mod_cast not_lt.mp hs
        rw [hlow, hhigh, h52]
        push_cast at hs'
        linarith
    · right
      apply hbig
      rw [hlow, h52]
      rw [h53] at hhigh
      linarith
  · right
    apply hbig
    have hhigh0 : 0 ≤ high := by
      rcases roundDouble_natCast_cases m high hh with ⟨_, hhigh⟩ | hhigh
      · rw [hhigh]
        exact hmn
      · rw [h53] at hhigh
        linarith
    rw [h52]
    rw [h53] at hlow
    linarith

/-- The three buckets of `checkFeeRange` in terms of the exact mean of two
finite parsed amounts. -/
theorem checkFeeRange_mean (text : String) (low high : ℚ)
    (h : parseFees text = some (JSNumber.fin low, JSNumber.fin high)) :
    (checkFeeRange text "low" = true ↔ (low + high) / 2 < 300000) ∧
    (checkFeeRange text "medium" = true ↔
      300000 ≤ (low + high) / 2 ∧ (low + high) / 2 ≤ 500000) ∧
    (checkFeeRange text "high" = true ↔ 500000 < (low + high) / 2) := by
  obtain ⟨n, m, hn, hm⟩ := parseFees_fin text low high h
  obtain ⟨hl, hmed, hh, _⟩ := checkFeeRange_of_parse text _ _ h
  have h51 : (2 : ℚ) ^ (51 : ℤ) = 2251799813685248 := by norm_num
  rw [hl, hmed, hh]
  rcases half_add_cases n m low high hn hm with hex | ⟨hge, hinf | ⟨z, hz, hzge⟩⟩
  · rw [hex]
    simp [JSNumber.lt, JSNumber.le, JSNumber.ge, JSNumber.gt]
  · rw [hinf]
    rw [h51] at hge
    simp only [JSNumber.lt, JSNumber.le, JSNumber.ge, JSNumber.gt, Bool.and_eq_true]
    refine ⟨?_, ?_, ?_⟩
    · constructor
      · intro hf
        exact Bool.noConfusion hf
      · intro hlt
        linarith
    · constructor
      · rintro ⟨_, hf⟩
        exact Bool.noConfusion hf
      · rintro ⟨_, hle⟩
        linarith
    · constructor
      · intro _
        linarith
      · intro _
        trivial
  · rw [hz]
    rw [h51] at hge hzge
    simp only [JSNumber.lt, JSNumber.le, JSNumber.ge, JSNumber.gt, Bool.and_eq_true,
      decide_eq_true_eq]
    refine ⟨?_, ?_, ?_⟩
    · constructor <;> intro hlt <;> linarith
    · constructor
      · rintro ⟨_, hle⟩
        linarith
      · rintro ⟨_, hle⟩
        linarith
    · constructor <;> intro _ <;> linarith

/-! ## Filtering: the claims -/

/-- A record whose fee text holds a rupee sign followed by a comma only, and
then one amount. -/
def schoolBareRupee : School :=
  { id := 8, name := "Pine Crest School", location := "Nainital", type := "Boarding",
    gender := "Co-ed", curriculum := "CBSE", rating := 4, reviews := 20,
    established := 2001, feeRange := "₹, - ₹5" }

/-- A record located in Dehradun. -/
def schoolDehradun : School :=
  { id := 1, name := "Valley Public School", location := "Dehradun", type := "Boarding",
    gender := "Co-ed", curriculum := "CBSE", rating := 4, reviews := 210,
    established := 1975, feeRange := "₹2,00,000 - ₹3,00,000" }

/-- C1 (the code at the failing input). The fee text `₹, - ₹5` holds the one
amount 5, so the fee-range match of spec §4.1 fails for it under the filter
`premium`; yet `filterSchools` keeps the record under that filter, every other
constraint being empty.  On the fee text `₹2,00,000 - ₹3,00,000` under `low`
the fee-range match holds and the record is kept. -/
theorem filterSchools_mem_not_feeRangeMatch :
    schoolBareRupee.feeRange = "₹, - ₹5" ∧
    feeAmounts schoolBareRupee.feeRange = [5] ∧
    ¬ FeeRangeMatch schoolBareRupee "premium" ∧
    schoolBareRupee ∈ filterSchools asciiLowerCase [schoolBareRupee] "" ""
      { getDefaultFilters with feeRange := "premium" } ∧
    feeAmounts schoolDehradun.feeRange = [200000, 300000] ∧
    FeeRangeMatch schoolDehradun "low" ∧
    schoolDehradun ∈ filterSchools asciiLowerCase [schoolDehradun] "" ""
      { getDefaultFilters with feeRange := "low" } := by
  have hbare : feeAmounts schoolBareRupee.feeRange = [5] := by decide
  have hdun : feeAmounts schoolDehradun.feeRange = [200000, 300000] := by decide
  refine ⟨rfl, hbare, ?_, by decide!, hdun, ?_, by decide!⟩
  · rintro (h | ⟨low, high, rest, h, -⟩)
    · exact absurd h (by decide)
    · rw [hbare] at h
      simp at h
  · refine Or.inr ⟨200000, 300000, [], hdun, ?_, ?_, ?_⟩
    · intro _
      norm_num
    · intro h
      exact absurd h (by decide)
    · intro h
      exact absurd h (by decide)

/-- C2. The output of `filterSchools` is a sublist of the input: only records
of the input, in the same relative order, none more often than in the input.
(The function builds a new list; the input is not modified.) -/
theorem filterSchools_sublist (toLowerCase : String → String) (schools : List School)
    (freeText location : String) (filters : Filters) :
    List.Sublist (filterSchools toLowerCase schools freeText location filters) schools ∧
      (∀ r, r ∈ filterSchools toLowerCase schools freeText location filters → r ∈ schools) ∧
      (∀ r, (filterSchools toLowerCase schools freeText location filters).count r ≤
        schools.count r) := by
  have hs : List.Sublist (filterSchools toLowerCase schools freeText location filters)
      schools := List.filter_sublist _
  exact ⟨hs, fun r hr => hs.subset hr, fun r => hs.count_le r⟩

/-- C3. When the fee text yields two amounts `low` and `high`, with
`mean = (low + high) / 2`: the filter `low` matches iff `mean < 300000`,
`medium` iff `300000 ≤ mean ≤ 500000` (both boundaries included), and `high`
iff `mean > 500000`. -/
theorem checkFeeRange_buckets (text : String) (low high : ℚ)
    (h : parseFees text = some (JSNumber.fin low, JSNumber.fin high)) :
    (checkFeeRange text "low" = true ↔ (low + high) / 2 < 300000) ∧
    (checkFeeRange text "medium" = true ↔
      300000 ≤ (low + high) / 2 ∧ (low + high) / 2 ≤ 500000) ∧
    (checkFeeRange text "high" = true ↔ 500000 < (low + high) / 2) :=
  checkFeeRange_mean text low high h

/-- The scenario of C3: mean 250000 matches `low`; mean 500000 does not match
`low` and matches `medium`. -/
theorem checkFeeRange_buckets_witness :
    parseFees "₹2,00,000 - ₹3,00,000" = some (JSNumber.fin 200000, JSNumber.fin 300000) ∧
    parseFees "₹4,00,000 - ₹6,00,000" = some (JSNumber.fin 400000, JSNumber.fin 600000) ∧
    checkFeeRange "₹2,00,000 - ₹3,00,000" "low" = true ∧
    ¬ checkFeeRange "₹4,00,000 - ₹6,00,000" "low" = true ∧
    checkFeeRange "₹4,00,000 - ₹6,00,000" "medium" = true :=
  ⟨by decide!, by decide!,
    (checkFeeRange_buckets "₹2,00,000 - ₹3,00,000" 200000 300000 (by decide!)).1.mpr
      (by norm_num),
    fun hlow => absurd
      ((checkFeeRange_buckets "₹4,00,000 - ₹6,00,000" 400000 600000 (by decide!)).1.mp hlow)
      (by norm_num),
    (checkFeeRange_buckets "₹4,00,000 - ₹6,00,000" 400000 600000 (by decide!)).2.1.mpr
      (by norm_num)⟩

/-- C4 (the code at the failing input). The fee text `₹, - ₹5` holds fewer than
two amounts: its one amount is 5.  The regular expression of `checkFeeRange`
matches twice, on `₹,` and on `₹5`; the first match is read as `NaN`, the
length guard passes, and under the non-empty fee filter `premium` the record
is kept by `filterSchools`. -/
theorem filterSchools_keeps_single_amount :
    feeAmounts schoolBareRupee.feeRange = [5] ∧
    feeMatch schoolBareRupee.feeRange = ["₹,", "₹5"] ∧
    parseFees schoolBareRupee.feeRange = some (JSNumber.nan, JSNumber.fin 5) ∧
    ({ getDefaultFilters with feeRange := "premium" } : Filters).feeRange ≠ "" ∧
    filterSchools asciiLowerCase [schoolBareRupee] "" ""
      { getDefaultFilters with feeRange := "premium" } = [schoolBareRupee] := by
  refine ⟨?_, ?_, ?_, ?_, ?_⟩ <;> decide!

/-- C5. With the location and all five filters empty, `filterSchools` keeps
exactly the records whose lower-cased name or lower-cased location contains
the lower-cased free text, and keeps every record when the free text is
empty.  (Lower-casing the empty string gives the empty string.) -/
theorem filterSchools_text_only (toLowerCase : String → String)
    (hempty : toLowerCase "" = "") (schools : List School) (freeText : String) :
    filterSchools toLowerCase schools freeText "" getDefaultFilters =
        schools.filter (fun r => includes (toLowerCase r.name) (toLowerCase freeText) ||
          includes (toLowerCase r.location) (toLowerCase freeText)) ∧
      (∀ r, r ∈ filterSchools toLowerCase schools freeText "" getDefaultFilters ↔
        r ∈ schools ∧ (Contains (toLowerCase r.name) (toLowerCase freeText) ∨
          Contains (toLowerCase r.location) (toLowerCase freeText))) ∧
      (freeText = "" → filterSchools toLowerCase schools freeText "" getDefaultFilters =
        schools) := by
  have hall : ∀ s : String, includes s "" = true := fun s =>
    (includes_iff s "").mpr ⟨[], s.toList, by simp⟩
  have hpred : matchesSchool toLowerCase freeText "" getDefaultFilters =
      (fun r => includes (toLowerCase r.name) (toLowerCase freeText) ||
        includes (toLowerCase r.location) (toLowerCase freeText)) := by
    funext r
    by_cases hq : freeText = ""
    · subst hq
      simp [matchesSchool, getDefaultFilters, hempty, hall]
    · simp [matchesSchool, getDefaultFilters, hq]
  have hlist : filterSchools toLowerCase schools freeText "" getDefaultFilters =
      schools.filter (fun r => includes (toLowerCase r.name) (toLowerCase freeText) ||
        includes (toLowerCase r.location) (toLowerCase freeText)) := by
    unfold filterSchools
    rw [hpred]
  refine ⟨hlist, ?_, ?_⟩
  · intro r
    rw [hlist, List.mem_filter, Bool.or_eq_true, includes_iff, includes_iff]
  · intro hq
    subst hq
    rw [hlist]
    simp [hempty, hall]

/-- A record located in Mussoorie; its rating is the binary64 value written
`3.9`. -/
def schoolMussoorie : School :=
  { id := 2, name := "Oak Ridge Academy", location := "Mussoorie", type := "Boarding",
    gender := "Girls", curriculum := "ICSE", rating := 8782019273372467 / 2251799813685248,
    reviews := 88, established := 1952, feeRange := "₹4,00,000 - ₹6,00,000" }

/-- The scenario of C5: free text `dun` keeps the record located in `Dehradun`
and drops the one whose name and location do not contain it. -/
theorem filterSchools_text_only_witness :
    asciiLowerCase "" = "" ∧
    filterSchools asciiLowerCase [schoolDehradun, schoolMussoorie] "dun" ""
      getDefaultFilters = [schoolDehradun] :=
  ⟨by decide,
    (filterSchools_text_only asciiLowerCase (by decide) [schoolDehradun, schoolMussoorie]
      "dun").1.trans (by decide)⟩

/-- C6. With the free text and all five filters empty and a non-empty selected
location, `filterSchools` keeps exactly the records whose location string
equals the selected location; equality is exact and case-sensitive. -/
theorem filterSchools_location_only (toLowerCase : String → String)
    (schools : List School) (location : String) (hloc : location ≠ "") :
    filterSchools toLowerCase schools "" location getDefaultFilters =
      schools.filter (fun r => decide (r.location = location)) := by
  unfold filterSchools
  congr 1
  funext r
  simp [matchesSchool, getDefaultFilters, hloc]

/-- A record whose location differs from `Dehradun` in letter case only. -/
def schoolLowerDehradun : School :=
  { id := 3, name := "Riverdale School", location := "dehradun", type := "Day School",
    gender := "Boys", curriculum := "IB", rating := 9 / 2, reviews := 12,
    established := 2004, feeRange := "₹6,50,000 - ₹7,00,000" }

/-- A record whose location contains `Dehradun` as a proper substring. -/
def schoolDehradunCantt : School :=
  { id := 4, name := "Cantonment School", location := "Dehradun Cantt", type := "Day School",
    gender := "Co-ed", curriculum := "CBSE", rating := 7 / 2, reviews := 40,
    established := 1989, feeRange := "₹1,00,000 - ₹1,50,000" }

/-- The scenario of C6: the location `Dehradun` keeps the record located in
`Dehradun` and drops `dehradun` and `Dehradun Cantt`. -/
theorem filterSchools_location_only_witness :
    "Dehradun" ≠ "" ∧
    filterSchools asciiLowerCase [schoolLowerDehradun, schoolDehradun, schoolDehradunCantt]
      "" "Dehradun" getDefaultFilters = [schoolDehradun] :=
  ⟨by decide,
    (filterSchools_location_only asciiLowerCase
      [schoolLowerDehradun, schoolDehradun, schoolDehradunCantt] "Dehradun"
      (by decide)).trans (by decide)⟩

/-- C7. With every other constraint empty and a rating filter `t` that parses
to the number `q`, `filterSchools` keeps exactly the records with
`rating ≥ q`; a rating equal to the threshold is kept. -/
theorem filterSchools_rating_only (toLowerCase : String → String)
    (schools : List School) (t : String) (q : ℚ) (ht : parseFloat t = JSNumber.fin q) :
    filterSchools toLowerCase schools "" "" { getDefaultFilters with rating := t } =
      schools.filter (fun r => decide (q ≤ r.rating)) := by
  have hne : t ≠ "" := by
    rintro rfl
    have hnan : parseFloat "" = JSNumber.nan := by decide
    rw [hnan] at ht
    exact JSNumber.noConfusion ht
  unfold filterSchools
  congr 1
  funext r
  simp [matchesSchool, getDefaultFilters, hne, ht, JSNumber.ge, JSNumber.le]

/-- A record with rating 0. -/
def schoolUnrated : School :=
  { id := 6, name := "New Horizon School", location := "Rishikesh", type := "Day School",
    gender := "Co-ed", curriculum := "State Board", rating := 0, reviews := 0,
    established := 2023, feeRange := "₹50,000 - ₹80,000" }

/-- The scenario of C7: the filter `4` drops rating 3.9 and keeps rating 4.0.
The filter `3.9` denotes the binary64 value nearest to 3.9 and keeps the
rating written `3.9`; the filter `4.0000000000000000001` denotes 4 and keeps
rating 4; the filter `1e-400` denotes 0 and keeps rating 0. -/
theorem filterSchools_rating_only_witness :
    parseFloat "4" = JSNumber.fin 4 ∧
    schoolMussoorie.rating = 8782019273372467 / 2251799813685248 ∧
    schoolDehradun.rating = 4 ∧
    filterSchools asciiLowerCase [schoolMussoorie, schoolDehradun] "" ""
      { getDefaultFilters with rating := "4" } = [schoolDehradun] ∧
    parseFloat "3.9" = JSNumber.fin (8782019273372467 / 2251799813685248) ∧
    filterSchools asciiLowerCase [schoolMussoorie, schoolDehradun] "" ""
      { getDefaultFilters with rating := "3.9" } = [schoolMussoorie, schoolDehradun] ∧
    parseFloat "4.0000000000000000001" = JSNumber.fin 4 ∧
    filterSchools asciiLowerCase [schoolMussoorie, schoolDehradun] "" ""
      { getDefaultFilters with rating := "4.0000000000000000001" } = [schoolDehradun] ∧
    parseFloat "1e-400" = JSNumber.fin 0 ∧
    filterSchools asciiLowerCase [schoolUnrated] "" ""
      { getDefaultFilters with rating := "1e-400" } = [schoolUnrated] :=
  ⟨by decide!, rfl, rfl,
    (filterSchools_rating_only asciiLowerCase [schoolMussoorie, schoolDehradun] "4" 4
      (by decide!)).trans (by decide!),
    by decide!,
    (filterSchools_rating_only asciiLowerCase [schoolMussoorie, schoolDehradun] "3.9"
      (8782019273372467 / 2251799813685248) (by decide!)).trans (by decide!),
    by decide!,
    (filterSchools_rating_only asciiLowerCase [schoolMussoorie, schoolDehradun]
      "4.0000000000000000001" 4 (by decide!)).trans (by decide!),
    by decide!,
    (filterSchools_rating_only asciiLowerCase [schoolUnrated] "1e-400" 0
      (by decide!)).trans (by decide!)⟩

/-- C8. The empty query is the identity: with empty free text, empty location
and the default filters, `filterSchools` returns the input list, whatever the
fee texts of its records are. -/
theorem filterSchools_empty_query (toLowerCase : String → String) (schools : List School) :
    filterSchools toLowerCase schools "" "" getDefaultFilters = schools := by
  unfold filterSchools
  apply List.filter_eq_self.mpr
  intro r _
  simp [matchesSchool, getDefaultFilters]

/-! ## Lemmas on the sort -/

theorem countRun_le_length {α : Type} (cmp : α → α → ℤ) (d : Bool) (prev : α)
    (rest : List α) : countRun cmp d prev rest ≤ rest.length := by
  induction rest generalizing prev with
  | nil => simp [countRun]
  | cons cur rest ih =>
    simp only [countRun, List.length_cons]
    have := ih cur
    split_ifs <;> omega

theorem countRun_chain_ascending {α : Type} (cmp : α → α → ℤ) (R : α → α → Prop)
    (hge : ∀ x y, ¬ cmp x y < 0 → R y x) (prev : α) (rest : List α) :
    List.Chain R prev (rest.take (countRun cmp false prev rest)) := by
  induction rest generalizing prev with
  | nil => simp [countRun]
  | cons cur rest ih =>
    simp only [countRun, Bool.false_eq_true, if_false]
    split_ifs with h
    · simp
    · rw [List.take_succ_cons]
      exact List.Chain.cons (hge cur prev h) (ih cur)

theorem countRun_chain_descending {α : Type} (cmp : α → α → ℤ) (R : α → α → Prop)
    (hlt : ∀ x y, cmp x y < 0 → R x y) (prev : α) (rest : List α) :
    List.Chain (fun a b => R b a) prev (rest.take (countRun cmp true prev rest)) := by
  induction rest generalizing prev with
  | nil => simp [countRun]
  | cons cur rest ih =>
    simp only [countRun, if_true]
    split_ifs with h
    · simp
    · rw [List.take_succ_cons]
      exact List.Chain.cons (hlt cur prev (not_le.mp h)) (ih cur)

/-- The run that `countAndMakeRun` leaves at the front of the array is ordered. -/
theorem countAndMakeRun_pairwise {α : Type} (cmp : α → α → ℤ) (R : α → α → Prop)
    (htrans : ∀ x y z, R x y → R y z → R x z)
    (hlt : ∀ x y, cmp x y < 0 → R x y) (hge : ∀ x y, ¬ cmp x y < 0 → R y x)
    (array : List α) :
    List.Pairwise R ((countAndMakeRun cmp array).2.take (countAndMakeRun cmp array).1) := by
  haveI : IsTrans α R := ⟨htrans⟩
  haveI : IsTrans α (fun a b => R b a) := ⟨fun x y z hxy hyz => htrans z y x hyz hxy⟩
  match array with
  | [] => simp [countAndMakeRun]
  | [a] => simp [countAndMakeRun]
  | a0 :: a1 :: rest =>
    have hlen := countRun_le_length cmp (decide (cmp a1 a0 < 0)) a1 rest
    by_cases hd : cmp a1 a0 < 0
    · have hrun : List.Pairwise (fun a b => R b a)
          (a0 :: a1 :: rest.take (countRun cmp true a1 rest)) :=
        List.chain_iff_pairwise.mp
          (List.Chain.cons (hlt a1 a0 hd) (countRun_chain_descending cmp R hlt a1 rest))
      simp only [countAndMakeRun, hd, decide_True, if_true]
      simp only [hd, decide_True] at hlen
      rw [List.take_left']
      · rw [List.take_succ_cons, List.take_succ_cons, List.pairwise_reverse]
        exact hrun
      · simp only [List.length_reverse, List.length_take, List.length_cons]
        omega
    · have hrun : List.Pairwise R (a0 :: a1 :: rest.take (countRun cmp false a1 rest)) :=
        List.chain_iff_pairwise.mp
          (List.Chain.cons (hge a1 a0 hd) (countRun_chain_ascending cmp R hge a1 rest))
      simp only [countAndMakeRun, hd, decide_False, Bool.false_eq_true, if_false]
      rw [List.take_succ_cons, List.take_succ_cons]
      exact hrun

/-- The binary search returns a position that splits an ordered array into
the elements that go before the pivot and those that go after it. -/
theorem insertionPoint_spec {α : Type} (cmp : α → α → ℤ) (R : α → α → Prop)
    (htrans : ∀ x y z, R x y → R y z → R x z)
    (hlt : ∀ x y, cmp x y < 0 → R x y) (hge : ∀ x y, ¬ cmp x y < 0 → R y x)
    (pivot : α) (arr : List α) (hsorted : List.Pairwise R arr) (n left right : ℕ)
    (hlr : left ≤ right) (hr : right ≤ arr.length) (hfuel : right - left ≤ n)
    (hbefore : ∀ i (hi : i < arr.length), i < left → R arr[i] pivot)
    (hafter : ∀ i (hi : i < arr.length), right ≤ i → R pivot arr[i]) :
    insertionPoint cmp pivot arr n left right ≤ arr.length ∧
      (∀ i (hi : i < arr.length), i < insertionPoint cmp pivot arr n left right →
        R arr[i] pivot) ∧
      (∀ i (hi : i < arr.length), insertionPoint cmp pivot arr n left right ≤ i →
        R pivot arr[i]) := by
  induction n generalizing left right with
  | zero =>
    have : left = right := by omega
    subst this
    exact ⟨hr, hbefore, hafter⟩
  | succ n ih =>
    unfold insertionPoint
    by_cases hlt' : left < right
    · simp only [hlt', if_true]
      have hmid1 : left ≤ left + (right - left) / 2 := Nat.le_add_right _ _
      have hmid2 : left + (right - left) / 2 < right := by omega
      have hmidlen : left + (right - left) / 2 < arr.length := by omega
      rw [List.get?_eq_get hmidlen]
      simp only [List.get_eq_getElem]
      have hidx := List.pairwise_iff_getElem.mp hsorted
      by_cases hc : cmp pivot arr[left + (right - left) / 2] < 0
      · simp only [hc, if_true]
        apply ih left (left + (right - left) / 2) hmid1 (by omega) (by omega) hbefore
        intro i hi hmi
        rcases Nat.eq_or_lt_of_le hmi with heq | hlt2
        · subst heq
          exact hlt _ _ hc
        · exact htrans _ _ _ (hlt _ _ hc) (hidx _ _ hmidlen hi hlt2)
      · simp only [hc, if_false]
        apply ih (left + (right - left) / 2 + 1) right (by omega) hr (by omega) _ hafter
        intro i hi him
        rcases Nat.eq_or_lt_of_le (Nat.lt_succ_iff.mp him) with heq | hlt2
        · subst heq
          exact hge _ _ hc
        · exact htrans _ _ _ (hidx _ _ hi hmidlen hlt2) (hge _ _ hc)
    · simp only [hlt', if_false]
      have : left = right := by omega
      subst this
      exact ⟨hr, hbefore, hafter⟩

theorem insertPivot_pairwise {α : Type} (cmp : α → α → ℤ) (R : α → α → Prop)
    (htrans : ∀ x y z, R x y → R y z → R x z)
    (hlt : ∀ x y, cmp x y < 0 → R x y) (hge : ∀ x y, ¬ cmp x y < 0 → R y x)
    (sorted : List α) (pivot : α) (hsorted : List.Pairwise R sorted) :
    List.Pairwise R (insertPivot cmp sorted pivot) := by
  obtain ⟨_, hb, ha⟩ := insertionPoint_spec cmp R htrans hlt hge pivot sorted hsorted
    sorted.length 0 sorted.length (Nat.zero_le _) le_rfl (by omega)
    (fun i _ h => absurd h (Nat.not_lt_zero i)) (fun i hi h => absurd hi (by omega))
  unfold insertPivot
  generalize insertionPoint cmp pivot sorted sorted.length 0 sorted.length = p at hb ha
  have hsplit : List.Pairwise R (sorted.take p ++ sorted.drop p) := by
    rw [List.take_append_drop]
    exact hsorted
  rw [List.pairwise_append] at hsplit
  obtain ⟨htake, hdrop, hcross⟩ := hsplit
  have hmemtake : ∀ x ∈ sorted.take p, R x pivot := by
    intro x hx
    obtain ⟨i, hi, rfl⟩ := List.getElem_of_mem hx
    have hip : i < p := by
      simp only [List.length_take] at hi
      omega
    have hil : i < sorted.length := by
      simp only [List.length_take] at hi
      omega
    rw [List.getElem_take]
    exact hb i hil hip
  have hmemdrop : ∀ x ∈ sorted.drop p, R pivot x := by
    intro x hx
    obtain ⟨i, hi, rfl⟩ := List.getElem_of_mem hx
    rw [List.getElem_drop]
    exact ha _ _ (Nat.le_add_right _ _)
  rw [List.pairwise_append]
  refine ⟨htake, List.pairwise_cons.mpr ⟨hmemdrop, hdrop⟩, ?_⟩
  intro a ha' b hb'
  rcases List.mem_cons.mp hb' with rfl | hb'
  · exact hmemtake a ha'
  · exact hcross a ha' b hb'

theorem binaryInsertionSort_pairwise {α : Type} (cmp : α → α → ℤ) (R : α → α → Prop)
    (htrans : ∀ x y z, R x y → R y z → R x z)
    (hlt : ∀ x y, cmp x y < 0 → R x y) (hge : ∀ x y, ¬ cmp x y < 0 → R y x)
    (sorted rest : List α) (hsorted : List.Pairwise R sorted) :
    List.Pairwise R (binaryInsertionSort cmp sorted rest) := by
  induction rest generalizing sorted with
  | nil => simpa [binaryInsertionSort] using hsorted
  | cons pivot rest ih =>
    simp only [binaryInsertionSort]
    exact ih _ (insertPivot_pairwise cmp R htrans hlt hge sorted pivot hsorted)

/-- The sort orders its output by any transitive relation that the sign of the
comparator respects. -/
theorem arraySort_pairwise {α : Type} (cmp : α → α → ℤ) (R : α → α → Prop)
    (htrans : ∀ x y z, R x y → R y z → R x z)
    (hlt : ∀ x y, cmp x y < 0 → R x y) (hge : ∀ x y, ¬ cmp x y < 0 → R y x)
    (array : List α) : List.Pairwise R (arraySort cmp array) := by
  unfold arraySort
  split_ifs with h
  · match array, h with
    | [], _ => exact List.Pairwise.nil
    | [a], _ => exact List.pairwise_singleton R a
    | _ :: _ :: _, h =>
      simp only [List.length_cons] at h
      omega
  · exact binaryInsertionSort_pairwise cmp R htrans hlt hge _ _
      (countAndMakeRun_pairwise cmp R htrans hlt hge array)

/-! ## Lemmas on the comparator -/

theorem compareSchools_desc_neg (toLowerCase : String → String) (sortBy : String)
    (a b : School) :
    compareSchools toLowerCase sortBy "desc" a b < 0 ↔
      (sortValue toLowerCase sortBy a).lt (sortValue toLowerCase sortBy b) = false := by
  have hne : ¬ ("desc" = "asc") := by decide
  simp only [compareSchools, hne, if_false]
  split_ifs with h <;> simp [h]

theorem compareSchools_asc_neg (toLowerCase : String → String) (sortBy : String)
    (a b : School) :
    compareSchools toLowerCase sortBy "asc" a b < 0 ↔
      (sortValue toLowerCase sortBy b).lt (sortValue toLowerCase sortBy a) = false := by
  simp only [compareSchools, if_true, SortValue.gt]
  split_ifs with h <;> simp [h]

/-- Sorting by a numeric key, descending: the keys never increase. -/
theorem sortSchools_desc_of_num (toLowerCase : String → String) (sortBy : String)
    (key : School → ℚ)
    (hkey : ∀ s, sortValue toLowerCase sortBy s = SortValue.num (key s))
    (schools : List School) :
    List.Pairwise (fun a b => key b ≤ key a)
      (sortSchools toLowerCase schools sortBy "desc") := by
  refine arraySort_pairwise (compareSchools toLowerCase sortBy "desc")
    (fun a b => key b ≤ key a) (fun x y z hxy hyz => le_trans hyz hxy) ?_ ?_ schools
  · intro x y h
    rw [compareSchools_desc_neg, hkey, hkey] at h
    simpa [SortValue.lt] using h
  · intro x y h
    rw [compareSchools_desc_neg, hkey, hkey] at h
    simp only [SortValue.lt, Bool.not_eq_false, decide_eq_true_eq] at h
    exact le_of_lt h

/-- Sorting by a numeric key, ascending: the keys never decrease. -/
theorem sortSchools_asc_of_num (toLowerCase : String → String) (sortBy : String)
    (key : School → ℚ)
    (hkey : ∀ s, sortValue toLowerCase sortBy s = SortValue.num (key s))
    (schools : List School) :
    List.Pairwise (fun a b => key a ≤ key b)
      (sortSchools toLowerCase schools sortBy "asc") := by
  refine arraySort_pairwise (compareSchools toLowerCase sortBy "asc")
    (fun a b => key a ≤ key b) (fun x y z hxy hyz => le_trans hxy hyz) ?_ ?_ schools
  · intro x y h
    rw [compareSchools_asc_neg, hkey, hkey] at h
    simpa [SortValue.lt] using h
  · intro x y h
    rw [compareSchools_asc_neg, hkey, hkey] at h
    simp only [SortValue.lt, Bool.not_eq_false, decide_eq_true_eq] at h
    exact le_of_lt h

theorem stringLt_iff_lex (as bs : List ℕ) :
    stringLt as bs = true ↔ List.Lex (· < ·) as bs := by
  induction as generalizing bs with
  | nil =>
    cases bs with
    | nil => simp [stringLt]
    | cons b bs => simp [stringLt, List.Lex.nil]
  | cons a as ih =>
    cases bs with
    | nil => simp [stringLt]
    | cons b bs =>
      simp only [stringLt]
      split_ifs with h
      · subst h
        rw [ih, List.Lex.cons_iff]
      · rw [decide_eq_true_eq]
        constructor
        · exact List.Lex.rel
        · intro hl
          cases hl with
          | cons _ => exact absurd rfl h
          | rel hr => exact hr

/-- The comparison `stringLt` is the lexicographic order of lists of code
units. -/
theorem stringLt_iff (a b : List ℕ) : stringLt a b = true ↔ a < b := by
  rw [stringLt_iff_lex]
  rfl

theorem sortValue_rating (toLowerCase : String → String) (s : School) :
    sortValue toLowerCase "rating" s = SortValue.num s.rating := by
  simp [sortValue]

theorem sortValue_reviews (toLowerCase : String → String) (s : School) :
    sortValue toLowerCase "reviews" s = SortValue.num (s.reviews : ℚ) := by
  have h1 : ¬ ("reviews" = "rating") := by decide
  have h2 : ¬ ("reviews" = "name") := by decide
  simp [sortValue, h1, h2]

theorem sortValue_established (toLowerCase : String → String) (s : School) :
    sortValue toLowerCase "established" s = SortValue.num (s.established : ℚ) := by
  have h1 : ¬ ("established" = "rating") := by decide
  have h2 : ¬ ("established" = "name") := by decide
  have h3 : ¬ ("established" = "reviews") := by decide
  simp [sortValue, h1, h2, h3]

theorem sortValue_name (toLowerCase : String → String) (s : School) :
    sortValue toLowerCase "name" s = SortValue.str (toLowerCase s.name) := by
  have h1 : ¬ ("name" = "rating") := by decide
  simp [sortValue, h1]

/-! ## Sorting: the claims -/

/-- C9. For each of the keys `rating`, `reviews` and `established`, the output
of `sortSchools` with order `desc` has non-increasing key values from front
to back, and with order `asc` non-decreasing key values, the keys compared as
numbers. -/
theorem sortSchools_numeric_sorted (toLowerCase : String → String) (schools : List School) :
    List.Sorted (· ≥ ·)
        ((sortSchools toLowerCase schools "rating" "desc").map (fun s => s.rating)) ∧
      List.Sorted (· ≤ ·)
        ((sortSchools toLowerCase schools "rating" "asc").map (fun s => s.rating)) ∧
      List.Sorted (· ≥ ·)
        ((sortSchools toLowerCase schools "reviews" "desc").map (fun s => s.reviews)) ∧
      List.Sorted (· ≤ ·)
        ((sortSchools toLowerCase schools "reviews" "asc").map (fun s => s.reviews)) ∧
      List.Sorted (· ≥ ·)
        ((sortSchools toLowerCase schools "established" "desc").map
          (fun s => s.established)) ∧
      List.Sorted (· ≤ ·)
        ((sortSchools toLowerCase schools "established" "asc").map
          (fun s => s.established)) := by
  simp only [List.Sorted, List.pairwise_map]
  refine ⟨?_, ?_, ?_, ?_, ?_, ?_⟩
  · exact sortSchools_desc_of_num toLowerCase "rating" (fun s => s.rating)
      (sortValue_rating toLowerCase) schools
  · exact sortSchools_asc_of_num toLowerCase "rating" (fun s => s.rating)
      (sortValue_rating toLowerCase) schools
  · exact (sortSchools_desc_of_num toLowerCase "reviews" (fun s => (s.reviews : ℚ))
      (sortValue_reviews toLowerCase) schools).imp (fun h => Nat.cast_le.mp h)
  · exact (sortSchools_asc_of_num toLowerCase "reviews" (fun s => (s.reviews : ℚ))
      (sortValue_reviews toLowerCase) schools).imp (fun h => Nat.cast_le.mp h)
  · exact (sortSchools_desc_of_num toLowerCase "established" (fun s => (s.established : ℚ))
      (sortValue_established toLowerCase) schools).imp (fun h => Nat.cast_le.mp h)
  · exact (sortSchools_asc_of_num toLowerCase "established" (fun s => (s.established : ℚ))
      (sortValue_established toLowerCase) schools).imp (fun h => Nat.cast_le.mp h)

/-- C10. `sortSchools` with key `name` orders the records by their lower-cased
names in lexicographic order, non-decreasing for `asc` and non-increasing for
`desc`, the names compared as sequences of UTF-16 code units; two records
whose names lower-case to the same string have the same key, so the comparator
cannot tell them apart. -/
theorem sortSchools_name_sorted (toLowerCase : String → String) (schools : List School) :
    List.Sorted (· ≤ ·)
        ((sortSchools toLowerCase schools "name" "asc").map
          (fun s => codeUnits (toLowerCase s.name))) ∧
      List.Sorted (· ≥ ·)
        ((sortSchools toLowerCase schools "name" "desc").map
          (fun s => codeUnits (toLowerCase s.name))) ∧
      (∀ a b : School, toLowerCase a.name = toLowerCase b.name →
        ∀ (order : String) (c : School),
          compareSchools toLowerCase "name" order a c =
              compareSchools toLowerCase "name" order b c ∧
            compareSchools toLowerCase "name" order c a =
              compareSchools toLowerCase "name" order c b) := by
  simp only [List.Sorted, List.pairwise_map]
  refine ⟨?_, ?_, ?_⟩
  · refine arraySort_pairwise (compareSchools toLowerCase "name" "asc")
      (fun a b => codeUnits (toLowerCase a.name) ≤ codeUnits (toLowerCase b.name))
      (fun x y z hxy hyz => le_trans hxy hyz) ?_ ?_ schools
    · intro x y h
      rw [compareSchools_asc_neg, sortValue_name, sortValue_name] at h
      simp only [SortValue.lt, Bool.eq_false_iff, ne_eq, stringLt_iff] at h
      exact not_lt.mp h
    · intro x y h
      rw [compareSchools_asc_neg, sortValue_name, sortValue_name] at h
      simp only [SortValue.lt, Bool.not_eq_false, stringLt_iff] at h
      exact le_of_lt h
  · refine arraySort_pairwise (compareSchools toLowerCase "name" "desc")
      (fun a b => codeUnits (toLowerCase a.name) ≥ codeUnits (toLowerCase b.name))
      (fun x y z hxy hyz => le_trans hyz hxy) ?_ ?_ schools
    · intro x y h
      rw [compareSchools_desc_neg, sortValue_name, sortValue_name] at h
      simp only [SortValue.lt, Bool.eq_false_iff, ne_eq, stringLt_iff] at h
      exact not_lt.mp h
    · intro x y h
      rw [compareSchools_desc_neg, sortValue_name, sortValue_name] at h
      simp only [SortValue.lt, Bool.not_eq_false, stringLt_iff] at h
      exact le_of_lt h
  · intro a b hab order c
    simp only [compareSchools, sortValue_name, hab, and_self]

/-- A record whose name is the fullwidth exclamation mark `U+FF01`, one code
unit. -/
def schoolFullwidth : School :=
  { schoolDehradun with id := 9, name := "！" }

/-- A record whose name is the character `U+1F600`, the surrogate pair
`D83D DE00`. -/
def schoolSurrogate : School :=
  { schoolDehradun with id := 10, name := "😀" }

/-- The scenario of C10 on the names `U+FF01` and `U+1F600`: the second has
the smaller first code unit (`D83D` against `FF01`) and is placed first in
ascending order, although its code point is the larger one; two names that
differ in letter case only are equal keys. -/
theorem sortSchools_name_sorted_witness :
    codeUnits (asciiLowerCase schoolFullwidth.name) = [0xFF01] ∧
    codeUnits (asciiLowerCase schoolSurrogate.name) = [0xD83D, 0xDE00] ∧
    sortSchools asciiLowerCase [schoolFullwidth, schoolSurrogate] "name" "asc" =
      [schoolSurrogate, schoolFullwidth] ∧
    sortSchools asciiLowerCase [schoolSurrogate, schoolFullwidth] "name" "asc" =
      [schoolSurrogate, schoolFullwidth] ∧
    List.Sorted (· ≤ ·)
      ((sortSchools asciiLowerCase [schoolFullwidth, schoolSurrogate] "name" "asc").map
        (fun s => codeUnits (asciiLowerCase s.name))) ∧
    compareSchools asciiLowerCase "name" "asc" schoolDehradun schoolMussoorie =
      compareSchools asciiLowerCase "name" "asc"
        { schoolDehradun with name := "VALLEY PUBLIC SCHOOL" } schoolMussoorie :=
  ⟨by decide, by decide, by decide, by decide,
    (sortSchools_name_sorted asciiLowerCase [schoolFullwidth, schoolSurrogate]).1,
    ((sortSchools_name_sorted asciiLowerCase []).2.2 schoolDehradun
      { schoolDehradun with name := "VALLEY PUBLIC SCHOOL" } (by decide) "asc"
      schoolMussoorie).1⟩

/-- A second record with rating 4, the rating of `schoolDehradun`. -/
def schoolSameRating : School :=
  { id := 5, name := "Green Meadows School", location := "Dehradun", type := "Day School",
    gender := "Co-ed", curriculum := "ICSE", rating := 4, reviews := 64,
    established := 1992, feeRange := "₹3,00,000 - ₹4,00,000" }

/-- C11 (the code at the failing input). Two records with the same rating:
the comparator answers `-1` for the pair in either order, the sort takes the
pair for a descending run and reverses it, so each call of `sortSchools`
swaps the two records and sorting the sorted list does not return it. -/
theorem sortSchools_not_idempotent :
    schoolDehradun.rating = schoolSameRating.rating ∧
    sortSchools asciiLowerCase [schoolDehradun, schoolSameRating] "rating" "desc" =
      [schoolSameRating, schoolDehradun] ∧
    sortSchools asciiLowerCase
        (sortSchools asciiLowerCase [schoolDehradun, schoolSameRating] "rating" "desc")
        "rating" "desc" = [schoolDehradun, schoolSameRating] ∧
    sortSchools asciiLowerCase
        (sortSchools asciiLowerCase [schoolDehradun, schoolSameRating] "rating" "desc")
        "rating" "desc" ≠
      sortSchools asciiLowerCase [schoolDehradun, schoolSameRating] "rating" "desc" := by
  refine ⟨rfl, ?_, ?_, ?_⟩ <;> decide!

theorem sortValue_of_unrecognised (toLowerCase : String → String) (sortBy : String)
    (hname : sortBy ≠ "name") (hreviews : sortBy ≠ "reviews")
    (hestablished : sortBy ≠ "established") (s : School) :
    sortValue toLowerCase sortBy s = SortValue.num s.rating := by
  simp [sortValue, hname, hreviews, hestablished]

theorem compareSchools_of_unrecognised (toLowerCase : String → String)
    (sortBy sortOrder : String) (hname : sortBy ≠ "name") (hreviews : sortBy ≠ "reviews")
    (hestablished : sortBy ≠ "established") :
    compareSchools toLowerCase sortBy sortOrder =
      compareSchools toLowerCase "rating" sortOrder := by
  funext a b
  simp only [compareSchools,
    sortValue_of_unrecognised toLowerCase sortBy hname hreviews hestablished,
    sortValue_rating]

/-- C12. For every record list and order, sorting by `feeRange` returns the
same sequence as sorting by `rating`, and so does every key other than `name`,
`reviews` and `established`; the comparator for `feeRange` depends on the
ratings of the two records only, not on their fee texts. -/
theorem sortSchools_feeRange_eq_rating (toLowerCase : String → String)
    (schools : List School) (sortOrder : String) :
    sortSchools toLowerCase schools "feeRange" sortOrder =
        sortSchools toLowerCase schools "rating" sortOrder ∧
      (∀ sortBy : String, sortBy ≠ "name" → sortBy ≠ "reviews" → sortBy ≠ "established" →
        sortSchools toLowerCase schools sortBy sortOrder =
          sortSchools toLowerCase schools "rating" sortOrder) ∧
      (∀ a b a' b' : School, a.rating = a'.rating → b.rating = b'.rating →
        compareSchools toLowerCase "feeRange" sortOrder a b =
          compareSchools toLowerCase "feeRange" sortOrder a' b') := by
  have hfee : compareSchools toLowerCase "feeRange" sortOrder =
      compareSchools toLowerCase "rating" sortOrder :=
    compareSchools_of_unrecognised toLowerCase "feeRange" sortOrder (by decide) (by decide)
      (by decide)
  refine ⟨?_, ?_, ?_⟩
  · unfold sortSchools
    rw [hfee]
  · intro sortBy hname hreviews hestablished
    unfold sortSchools
    rw [compareSchools_of_unrecognised toLowerCase sortBy sortOrder hname hreviews
      hestablished]
  · intro a b a' b' ha hb
    rw [hfee]
    simp only [compareSchools, sortValue_rating, ha, hb]

/-- The scenario of C12 for an unrecognised key: sorting by `popularity` is
sorting by rating. -/
theorem sortSchools_feeRange_eq_rating_witness :
    "popularity" ≠ "name" ∧ "popularity" ≠ "reviews" ∧ "popularity" ≠ "established" ∧
    sortSchools asciiLowerCase [schoolDehradun, schoolMussoorie] "popularity" "asc" =
      sortSchools asciiLowerCase [schoolDehradun, schoolMussoorie] "rating" "asc" ∧
    sortSchools asciiLowerCase [schoolDehradun, schoolMussoorie] "feeRange" "asc" =
      [schoolMussoorie, schoolDehradun] :=
  ⟨by decide, by decide, by decide,
    (sortSchools_feeRange_eq_rating asciiLowerCase [schoolDehradun, schoolMussoorie]
      "asc").2.1 "popularity" (by decide) (by decide) (by decide),
    (sortSchools_feeRange_eq_rating asciiLowerCase [schoolDehradun, schoolMussoorie]
      "asc").1.trans (by decide!)⟩

/-! ## Lemmas on the pagination values -/

/-- `Math.ceil(n / 12)` is the least integer `t` with `n ≤ 12 * t`. -/
theorem totalPages_le_iff (n : ℕ) (t : ℤ) : totalPages n ≤ t ↔ (n : ℤ) ≤ 12 * t := by
  unfold totalPages SCHOOLS_PER_PAGE
  rw [Int.ceil_le]
  push_cast
  rw [div_le_iff₀ (by norm_num : (0 : ℚ) < 12)]
  constructor
  · intro h
    have h' : ((n : ℤ) : ℚ) ≤ ((12 * t : ℤ) : ℚ) := by
      push_cast
      linarith
    exact_mod_cast h'
  · intro h
    have h' : ((n : ℤ) : ℚ) ≤ ((12 * t : ℤ) : ℚ) := by exact_mod_cast h
    push_cast at h'
    linarith

theorem totalPages_eq (n : ℕ) : totalPages n = (((n + 11) / 12 : ℕ) : ℤ) := by
  apply le_antisymm
  · rw [totalPages_le_iff]
    have := Nat.div_add_mod (n + 11) 12
    have := Nat.mod_lt (n + 11) (by norm_num : 12 > 0)
    omega
  · have h := (totalPages_le_iff n (totalPages n)).mp le_rfl
    have := Nat.div_add_mod (n + 11) 12
    have := Nat.mod_lt (n + 11) (by norm_num : 12 > 0)
    omega

theorem totalPages_of_zero : totalPages 0 = 0 := by
  rw [totalPages_eq]
  rfl

/-! ## Pagination: the claims -/

/-- C13 (counterexample). For the empty result list the list view computes
`totalPages = Math.ceil(0 / 12) = 0`, not `max(1, ceil(0 / 12)) = 1`. -/
theorem totalPages_zero :
    totalPages 0 = 0 ∧ totalPages 0 ≠ max 1 ⌈((0 : ℕ) : ℚ) / 12⌉ ∧ totalPages 0 ≠ 1 := by
  have h0 : totalPages 0 = 0 := totalPages_of_zero
  refine ⟨h0, ?_, ?_⟩
  · rw [h0]
    norm_num
  · rw [h0]
    norm_num

/-- C13 (amended). The number of pages is `ceil(n / 12)`, the least `t` with
`n ≤ 12 * t`: it is `0` when `n = 0`, and for every `n ≥ 1` it is at least `1`
and equals `max(1, ceil(n / 12))`. -/
theorem totalPages_spec (n : ℕ) :
    totalPages n = ⌈(n : ℚ) / 12⌉ ∧
      ((n : ℤ) ≤ 12 * totalPages n ∧ ∀ t : ℤ, (n : ℤ) ≤ 12 * t → totalPages n ≤ t) ∧
      (n = 0 → totalPages n = 0) ∧
      (1 ≤ n → 1 ≤ totalPages n ∧ totalPages n = max 1 ⌈(n : ℚ) / 12⌉) := by
  have hdef : totalPages n = ⌈(n : ℚ) / 12⌉ := by
    simp [totalPages, SCHOOLS_PER_PAGE]
  refine ⟨hdef, ⟨(totalPages_le_iff n _).mp le_rfl, fun t ht => (totalPages_le_iff n t).mpr ht⟩,
    ?_, ?_⟩
  · rintro rfl
    exact totalPages_of_zero
  · intro hn
    have h1 : 1 ≤ totalPages n := by
      by_contra hlt
      have hle : totalPages n ≤ 0 := by omega
      have := (totalPages_le_iff n 0).mp hle
      omega
    refine ⟨h1, ?_⟩
    rw [← hdef]
    exact (max_eq_right h1).symm

/-- The scenario of C13 (amended) for 13 results: two pages. -/
theorem totalPages_spec_witness :
    1 ≤ 13 ∧ 1 ≤ totalPages 13 ∧ totalPages 13 = max 1 ⌈((13 : ℕ) : ℚ) / 12⌉ ∧
    totalPages 13 ≤ 2 :=
  ⟨by decide, ((totalPages_spec 13).2.2.2 (by decide)).1,
    ((totalPages_spec 13).2.2.2 (by decide)).2,
    (totalPages_spec 13).2.1.2 2 (by decide)⟩

/-- C14 (counterexample). For the empty list on page 1 the values are
`totalPages = 0` and `endIndex = 12`, so they are not `pageItems = []`,
`totalPages = 1`, `startIndex = 0`, `endIndex = 0`. -/
theorem pageValues_empty :
    (pageValues [] 1).totalPages = 0 ∧ (pageValues [] 1).endIndex = 12 ∧
    ¬ ((pageValues [] 1).pageItems = [] ∧ (pageValues [] 1).totalPages = 1 ∧
      (pageValues [] 1).startIndex = 0 ∧ (pageValues [] 1).endIndex = 0) := by
  have ht : (pageValues [] 1).totalPages = 0 := totalPages_of_zero
  refine ⟨ht, by decide, ?_⟩
  intro h
  rw [ht] at h
  exact absurd h.2.1 (by decide)

/-- C14 (amended). For every sorted list and page `p`:
`startIndex = (p − 1)·12`, the slice bound is `endIndex = startIndex + 12`,
and the end of the range shown in the header is `min(startIndex + 12, n)`;
for the empty list on page 1 the values are `pageItems = []`,
`totalPages = 0`, `startIndex = 0`, `endIndex = 12` and shown end `0`. -/
theorem pageValues_spec (sortedSchools : List School) (p : ℤ) :
    ((pageValues sortedSchools p).startIndex = (p - 1) * 12 ∧
      (pageValues sortedSchools p).endIndex = (pageValues sortedSchools p).startIndex + 12 ∧
      (pageValues sortedSchools p).shownEnd =
        min ((pageValues sortedSchools p).startIndex + 12) sortedSchools.length) ∧
    pageValues [] 1 =
      { pageItems := [], totalPages := 0, startIndex := 0, endIndex := 12, shownEnd := 0 } := by
  refine ⟨⟨rfl, rfl, rfl⟩, ?_⟩
  have ht : totalPages 0 = 0 := totalPages_of_zero
  simp only [pageValues, List.length_nil, ht]
  decide

/-! ## Lemmas on pages -/

theorem sliceIndex_natCast (len k : ℕ) : sliceIndex len (k : ℤ) = min k len := by
  unfold sliceIndex
  have h : ¬ ((k : ℤ) < 0) := by omega
  simp [h]

/-- On page `p ≥ 1` the slice is the twelve records after the first
`(p − 1)·12`, as far as the list goes. -/
theorem currentSchools_eq (sortedSchools : List School) (p : ℕ) (hp : 1 ≤ p) :
    currentSchools sortedSchools (p : ℤ) = (sortedSchools.drop ((p - 1) * 12)).take 12 := by
  have hstart : startIndex (p : ℤ) = (((p - 1) * 12 : ℕ) : ℤ) := by
    unfold startIndex SCHOOLS_PER_PAGE
    push_cast [Nat.cast_sub hp]
    ring
  have hend : endIndex (p : ℤ) = (((p - 1) * 12 + 12 : ℕ) : ℤ) := by
    unfold endIndex SCHOOLS_PER_PAGE
    rw [hstart]
    push_cast
    ring
  unfold currentSchools slice
  rw [hstart, hend, sliceIndex_natCast, sliceIndex_natCast]
  dsimp only
  generalize (p - 1) * 12 = k
  by_cases hk : k ≤ sortedSchools.length
  · rw [Nat.min_eq_left hk, List.take_eq_take]
    simp only [List.length_drop]
    omega
  · have hnil : sortedSchools.drop k = [] := List.drop_eq_nil_of_le (by omega)
    have hnil' : sortedSchools.drop (min k sortedSchools.length) = [] :=
      List.drop_eq_nil_of_le (by omega)
    rw [hnil, hnil']
    simp

theorem flatMap_pages_eq_take (sortedSchools : List School) (m : ℕ) :
    (List.range m).flatMap (fun k : ℕ => (sortedSchools.drop (k * 12)).take 12) =
      sortedSchools.take (m * 12) := by
  induction m with
  | zero => simp
  | succ m ih =>
    rw [List.range_succ, List.flatMap_append, ih, List.flatMap_singleton, Nat.succ_mul,
      List.take_add]

/-- C15. For a page `p` with `1 ≤ p ≤ totalPages` of a sorted list of `n`
records, the page's items are the records at positions `(p − 1)·12` up to but
excluding `min(p·12, n)`; the page holds `min(12, n − 12·(p − 1))` items, is
non-empty, holds at most 12, and holds exactly 12 unless it is the last. -/
theorem currentSchools_page (sortedSchools : List School) (p : ℕ) (h1 : 1 ≤ p)
    (h2 : (p : ℤ) ≤ totalPages sortedSchools.length) :
    currentSchools sortedSchools (p : ℤ) =
        (sortedSchools.take (min (p * 12) sortedSchools.length)).drop ((p - 1) * 12) ∧
      (currentSchools sortedSchools (p : ℤ)).length =
        min 12 (sortedSchools.length - 12 * (p - 1)) ∧
      currentSchools sortedSchools (p : ℤ) ≠ [] ∧
      (currentSchools sortedSchools (p : ℤ)).length ≤ 12 ∧
      ((p : ℤ) < totalPages sortedSchools.length →
        (currentSchools sortedSchools (p : ℤ)).length = 12) := by
  have hlen : (currentSchools sortedSchools (p : ℤ)).length =
      min 12 (sortedSchools.length - 12 * (p - 1)) := by
    rw [currentSchools_eq sortedSchools p h1, List.length_take, List.length_drop]
    omega
  have hdiv := Nat.div_add_mod (sortedSchools.length + 11) 12
  have hmod := Nat.mod_lt (sortedSchools.length + 11) (by norm_num : 12 > 0)
  rw [totalPages_eq] at h2
  have h2' : p ≤ (sortedSchools.length + 11) / 12 := by exact_mod_cast h2
  refine ⟨?_, hlen, ?_, ?_, ?_⟩
  · rw [currentSchools_eq sortedSchools p h1, List.drop_take]
    apply List.take_eq_take.mpr
    simp only [List.length_drop]
    omega
  · intro hnil
    rw [hnil, List.length_nil] at hlen
    omega
  · rw [hlen]
    exact Nat.min_le_left _ _
  · intro hlt
    rw [totalPages_eq] at hlt
    have hlt' : p < (sortedSchools.length + 11) / 12 := by exact_mod_cast hlt
    rw [hlen]
    omega

/-- Thirteen records, numbered 0 to 12. -/
def thirteenSchools : List School :=
  (List.range 13).map (fun i => { schoolDehradun with id := i })

/-- The scenario of C15: 13 records give two pages, 12 items on page 1 and
1 item on page 2. -/
theorem currentSchools_page_witness :
    thirteenSchools.length = 13 ∧ totalPages thirteenSchools.length = 2 ∧
    (currentSchools thirteenSchools ((1 : ℕ) : ℤ)).length = 12 ∧
    (currentSchools thirteenSchools ((2 : ℕ) : ℤ)).length = 1 :=
  have ht : totalPages thirteenSchools.length = 2 := by decide!
  ⟨rfl, ht,
    ((currentSchools_page thirteenSchools 1 (by decide) (by rw [ht]; decide)).2.1).trans
      (by decide),
    ((currentSchools_page thirteenSchools 2 (by decide) (by rw [ht]; decide)).2.1).trans
      (by decide)⟩

/-- C16. Concatenating the items of pages `1, 2, …, totalPages` in order gives
back the sorted list: no record is duplicated and none is left out. -/
theorem pages_cover (sortedSchools : List School) :
    (List.range (totalPages sortedSchools.length).toNat).flatMap
        (fun k : ℕ => currentSchools sortedSchools (((k + 1 : ℕ)) : ℤ)) =
      sortedSchools := by
  have hpages : (List.range (totalPages sortedSchools.length).toNat).flatMap
      (fun k : ℕ => currentSchools sortedSchools (((k + 1 : ℕ)) : ℤ)) =
      (List.range (totalPages sortedSchools.length).toNat).flatMap
        (fun k : ℕ => (sortedSchools.drop (k * 12)).take 12) := by
    apply List.flatMap_congr
    intro k _
    rw [currentSchools_eq sortedSchools (k + 1) (by omega)]
    simp
  rw [hpages, flatMap_pages_eq_take, totalPages_eq, Int.toNat_ofNat]
  apply List.take_of_length_le
  have hdiv := Nat.div_add_mod (sortedSchools.length + 11) 12
  have hmod := Nat.mod_lt (sortedSchools.length + 11) (by norm_num : 12 > 0)
  omega

/-- C17. `handlePageChange(p)` sets the current page to `p` when
`1 ≤ p ≤ totalPages` and leaves it unchanged for every other `p`; hence a
current page within `[1, totalPages]` stays within that range. -/
theorem handlePageChange_spec (total current p : ℤ) :
    (1 ≤ p ∧ p ≤ total → handlePageChange total current p = p) ∧
      (¬ (1 ≤ p ∧ p ≤ total) → handlePageChange total current p = current) ∧
      (1 ≤ current ∧ current ≤ total →
        1 ≤ handlePageChange total current p ∧ handlePageChange total current p ≤ total) := by
  unfold handlePageChange
  refine ⟨fun h => if_pos h, fun h => if_neg h, fun hc => ?_⟩
  split_ifs with h
  · exact h
  · exact hc

/-- The scenario of C17 with three pages and current page 2: a request for
page 3 is taken, requests for pages 4 and 0 change nothing. -/
theorem handlePageChange_spec_witness :
    handlePageChange 3 2 3 = 3 ∧ handlePageChange 3 2 4 = 2 ∧ handlePageChange 3 2 0 = 2 ∧
    (1 ≤ handlePageChange 3 2 4 ∧ handlePageChange 3 2 4 ≤ 3) :=
  ⟨(handlePageChange_spec 3 2 3).1 (by decide), (handlePageChange_spec 3 2 4).2.1 (by decide),
    (handlePageChange_spec 3 2 0).2.1 (by decide), (handlePageChange_spec 3 2 4).2.2 (by decide)⟩

/-! ## Lemmas on the page window -/

theorem floor_five_halves : ⌊((5 : ℤ) : ℚ) / 2⌋ = 2 := by
  rw [Int.floor_eq_iff]
  norm_num

theorem pushPages_length (first last : ℤ) :
    (pushPages first last).length = (last + 1 - first).toNat := by
  simp [pushPages]

theorem mem_pushPages (first last x : ℤ) :
    x ∈ pushPages first last ↔ first ≤ x ∧ x ≤ last := by
  simp only [pushPages, List.mem_map, List.mem_range]
  constructor
  · rintro ⟨k, hk, rfl⟩
    omega
  · intro h
    refine ⟨(x - first).toNat, ?_, ?_⟩ <;> omega

theorem pushPages_five (first : ℤ) :
    pushPages first (first + 4) = [first, first + 1, first + 2, first + 3, first + 4] := by
  have h : (first + 4 + 1 - first).toNat = 5 := by omega
  simp [pushPages, h, List.range_succ]

theorem pushPages_chain (first last : ℤ) :
    List.Chain' (fun x y : ℤ => y = x + 1) (pushPages first last) := by
  rw [List.chain'_iff_get]
  intro i h
  simp only [pushPages, List.get_eq_getElem, List.getElem_map, List.getElem_range]
  push_cast
  ring

/-- The window of `getPageNumbers`, case by case. -/
theorem getPageNumbers_cases (total current : ℤ) (h1 : 1 ≤ current) (h2 : current ≤ total) :
    (total ≤ 5 → getPageNumbers total current = pushPages 1 total) ∧
      (5 < total → current ≤ 2 → getPageNumbers total current = pushPages 1 (1 + 4)) ∧
      (5 < total → 3 ≤ current → current ≤ total - 2 →
        getPageNumbers total current = pushPages (current - 2) (current - 2 + 4)) ∧
      (5 < total → total - 1 ≤ current →
        getPageNumbers total current = pushPages (total - 4) (total - 4 + 4)) := by
  unfold getPageNumbers
  simp only [floor_five_halves]
  refine ⟨fun h => if_pos h, ?_, ?_, ?_⟩
  · intro h5 hc
    rw [if_neg (by omega)]
    have hs : max 1 (current - 2) = 1 := by omega
    have he : min total ((1 : ℤ) + 5 - 1) = 1 + 4 := by omega
    rw [hs, he, if_neg (by omega)]
  · intro h5 hc3 hc
    rw [if_neg (by omega)]
    have hs : max 1 (current - 2) = current - 2 := by omega
    have he : min total (current - 2 + 5 - 1) = current - 2 + 4 := by omega
    rw [hs, he, if_neg (by omega)]
  · intro h5 hc
    rw [if_neg (by omega)]
    have hs : max 1 (current - 2) = current - 2 := by omega
    have he : min total (current - 2 + 5 - 1) = total := by omega
    rw [hs, he]
    by_cases hlast : current = total - 1
    · subst hlast
      rw [if_pos (by omega)]
      have hm : max 1 (total - 5 + 1) = total - 4 := by omega
      rw [hm]
      congr 1
      omega
    · have hct : current = total := by omega
      subst hct
      rw [if_pos (by omega)]
      have hm : max 1 (current - 5 + 1) = current - 4 := by omega
      rw [hm]
      congr 1
      omega

/-! ## The page window: the claims -/

/-- C18. For `totalPages ≥ 1` and a current page in `[1, totalPages]`,
`getPageNumbers` returns consecutive integers in increasing order, all within
`[1, totalPages]`, and exactly `min(5, totalPages)` of them. -/
theorem getPageNumbers_window (total current : ℤ) (hT : 1 ≤ total) (h1 : 1 ≤ current)
    (h2 : current ≤ total) :
    List.Chain' (fun x y : ℤ => y = x + 1) (getPageNumbers total current) ∧
      List.Sorted (· < ·) (getPageNumbers total current) ∧
      (∀ x ∈ getPageNumbers total current, 1 ≤ x ∧ x ≤ total) ∧
      ((getPageNumbers total current).length : ℤ) = min 5 total ∧
      (getPageNumbers total current).length ≤ 5 ∧
      (total ≤ 5 → ∀ x : ℤ, 1 ≤ x → x ≤ total → x ∈ getPageNumbers total current) ∧
      (5 < total → (getPageNumbers total current).length = 5) := by
  obtain ⟨hsmall, hlow, hmid, hhigh⟩ := getPageNumbers_cases total current h1 h2
  have hshape : ∃ first last : ℤ, getPageNumbers total current = pushPages first last ∧
      1 ≤ first ∧ last ≤ total ∧ last + 1 - first = min 5 total := by
    by_cases h5 : total ≤ 5
    · exact ⟨1, total, hsmall h5, le_rfl, le_rfl, by omega⟩
    · have h5' : 5 < total := by omega
      by_cases hc2 : current ≤ 2
      · exact ⟨1, 1 + 4, hlow h5' hc2, le_rfl, by omega, by omega⟩
      · by_cases hc : current ≤ total - 2
        · exact ⟨current - 2, current - 2 + 4, hmid h5' (by omega) hc, by omega, by omega,
            by omega⟩
        · exact ⟨total - 4, total - 4 + 4, hhigh h5' (by omega), by omega, by omega,
            by omega⟩
  obtain ⟨first, last, heq, hfirst, hlast, hcount⟩ := hshape
  have hchain : List.Chain' (fun x y : ℤ => y = x + 1) (getPageNumbers total current) := by
    rw [heq]
    exact pushPages_chain first last
  have hlen : ((getPageNumbers total current).length : ℤ) = min 5 total := by
    rw [heq, pushPages_length, Int.toNat_of_nonneg (by omega)]
    exact hcount
  refine ⟨hchain, ?_, ?_, hlen, by omega, ?_, ?_⟩
  · exact List.chain'_iff_pairwise.mp (hchain.imp (fun {a b} h => by omega))
  · intro x hx
    rw [heq, mem_pushPages] at hx
    omega
  · intro h5 x hx1 hx2
    rw [hsmall h5, mem_pushPages]
    exact ⟨hx1, hx2⟩
  · intro h5
    omega

/-- The scenario of C18: with 10 pages and the current page the last one,
the window still holds five numbers, `6` to `10`. -/
theorem getPageNumbers_window_witness :
    getPageNumbers 10 10 = [6, 7, 8, 9, 10] ∧
    ((getPageNumbers 10 10).length : ℤ) = min 5 10 ∧
    ∀ x ∈ getPageNumbers 10 10, (1 : ℤ) ≤ x ∧ x ≤ 10 :=
  ⟨by decide!,
    (getPageNumbers_window 10 10 (by decide) (by decide) (by decide)).2.2.2.1,
    (getPageNumbers_window 10 10 (by decide) (by decide) (by decide)).2.2.1⟩

/-- C20. For `totalPages ≥ 1` and a current page `c` in `[1, totalPages]`, the
list of `getPageNumbers` contains `c`; with more than five pages it is
`[c−2, c−1, c, c+1, c+2]` when `3 ≤ c ≤ totalPages − 2`, `[1..5]` when `c ≤ 2`,
and `[totalPages−4 .. totalPages]` when `c ≥ totalPages − 1`. -/
theorem getPageNumbers_centred (total c : ℤ) (_hT : 1 ≤ total) (h1 : 1 ≤ c) (h2 : c ≤ total) :
    c ∈ getPageNumbers total c ∧
      (5 < total → 3 ≤ c → c ≤ total - 2 →
        getPageNumbers total c = [c - 2, c - 1, c, c + 1, c + 2]) ∧
      (5 < total → c ≤ 2 → getPageNumbers total c = [1, 2, 3, 4, 5]) ∧
      (5 < total → total - 1 ≤ c →
        getPageNumbers total c = [total - 4, total - 3, total - 2, total - 1, total]) := by
  obtain ⟨hsmall, hlow, hmid, hhigh⟩ := getPageNumbers_cases total c h1 h2
  refine ⟨?_, ?_, ?_, ?_⟩
  · by_cases h5 : total ≤ 5
    · rw [hsmall h5, mem_pushPages]
      exact ⟨h1, h2⟩
    · have h5' : 5 < total := by omega
      by_cases hc2 : c ≤ 2
      · rw [hlow h5' hc2, mem_pushPages]
        omega
      · by_cases hc : c ≤ total - 2
        · rw [hmid h5' (by omega) hc, mem_pushPages]
          omega
        · rw [hhigh h5' (by omega), mem_pushPages]
          omega
  · intro h5 hc3 hc
    rw [hmid h5 hc3 hc, pushPages_five]
    have e1 : c - 2 + 1 = c - 1 := by ring
    have e2 : c - 2 + 2 = c := by ring
    have e3 : c - 2 + 3 = c + 1 := by ring
    have e4 : c - 2 + 4 = c + 2 := by ring
    rw [e1, e2, e3, e4]
  · intro h5 hc
    rw [hlow h5 hc, pushPages_five]
    rfl
  · intro h5 hc
    rw [hhigh h5 hc, pushPages_five]
    have e1 : total - 4 + 1 = total - 3 := by ring
    have e2 : total - 4 + 2 = total - 2 := by ring
    have e3 : total - 4 + 3 = total - 1 := by ring
    have e4 : total - 4 + 4 = total := by ring
    rw [e1, e2, e3, e4]

/-- The scenario of C20: with 10 pages and current page 5 the window is
centred on 5. -/
theorem getPageNumbers_centred_witness :
    (5 : ℤ) ∈ getPageNumbers 10 5 ∧ getPageNumbers 10 5 = [5 - 2, 5 - 1, 5, 5 + 1, 5 + 2] :=
  ⟨(getPageNumbers_centred 10 5 (by decide) (by decide) (by decide)).1,
    (getPageNumbers_centred 10 5 (by decide) (by decide) (by decide)).2.1 (by decide)
      (by decide) (by decide)⟩

/-! ## The filter state: lemmas and the claim -/

theorem JSObject.has_iff_mem_keys (o : JSObject) (key : String) :
    o.has key = true ↔ key ∈ o.keys := by
  simp only [JSObject.has, JSObject.keys, List.any_eq_true, beq_iff_eq, List.mem_map]

theorem JSObject.keys_set_of_has (o : JSObject) (key value : String) (h : o.has key = true) :
    (o.set key value).keys = o.keys := by
  simp only [JSObject.set, h, if_true, JSObject.keys, List.map_map]
  apply List.map_congr_left
  intro p _
  by_cases hp : p.1 = key <;> simp [hp]

theorem JSObject.get_set_same (o : JSObject) (key value : String) (h : o.has key = true) :
    (o.set key value).get key = some value := by
  simp only [JSObject.set, h, if_true, JSObject.get]
  induction o with
  | nil => simp [JSObject.has] at h
  | cons p rest ih =>
    by_cases hp : p.1 = key
    · simp [hp]
    · have hrest : JSObject.has rest key = true := by
        simp only [JSObject.has, List.any_cons, Bool.or_eq_true, beq_iff_eq] at h
        rcases h with h | h
        · exact absurd h hp
        · simpa [JSObject.has] using h
      simpa [hp] using ih hrest

theorem JSObject.get_set_other (o : JSObject) (key value k : String) (hk : k ≠ key)
    (h : o.has key = true) : (o.set key value).get k = o.get k := by
  simp only [JSObject.set, h, if_true, JSObject.get]
  clear h
  induction o with
  | nil => rfl
  | cons p rest ih =>
    by_cases hp : p.1 = key
    · have hpk : ¬ p.1 = k := fun e => hk (e.symm.trans hp)
      have hkk : ¬ key = k := fun e => hk e.symm
      simpa [hp, hpk, hkk] using ih
    · by_cases hpk : p.1 = k
      · simp [hp, hpk, hk]
      · simpa [hp, hpk] using ih

/-- C19. `getDefaultFilters()` has exactly the five keys, each with the empty
value, and `validateFilters` accepts it; `handleFilterChange` with one of the
five keys maps a state with exactly the five keys to a state with the same
keys, sets the named key and changes no other; `clearAllFilters` sets the
state of `getDefaultFilters()`. -/
theorem filters_five_keys :
    getDefaultFilters.toObject.keys = validFilterKeys ∧
      (∀ p ∈ getDefaultFilters.toObject, p.2 = "") ∧
      validateFilters getDefaultFilters.toObject = true ∧
      (∀ (state : JSObject) (filterKey value : String),
        state.keys.Perm validFilterKeys → filterKey ∈ validFilterKeys →
          (handleFilterChange state filterKey value).keys = state.keys ∧
          (handleFilterChange state filterKey value).keys.Perm validFilterKeys ∧
          validateFilters (handleFilterChange state filterKey value) = true ∧
          (handleFilterChange state filterKey value).get filterKey = some value ∧
          (∀ k : String, k ≠ filterKey →
            (handleFilterChange state filterKey value).get k = state.get k)) ∧
      clearAllFilters = getDefaultFilters.toObject ∧
      clearAllFilters.keys = validFilterKeys := by
  refine ⟨rfl, by decide, by decide, ?_, rfl, rfl⟩
  intro state filterKey value hkeys hkey
  have hhas : state.has filterKey = true :=
    (JSObject.has_iff_mem_keys state filterKey).mpr (hkeys.mem_iff.mpr hkey)
  have hsame : (handleFilterChange state filterKey value).keys = state.keys :=
    JSObject.keys_set_of_has state filterKey value hhas
  refine ⟨hsame, hsame ▸ hkeys, ?_, JSObject.get_set_same state filterKey value hhas,
    fun k hk => JSObject.get_set_other state filterKey value k hk hhas⟩
  simp only [validateFilters, List.all_eq_true]
  intro k hk
  rw [JSObject.has_iff_mem_keys, hsame]
  exact hkeys.mem_iff.mpr hk

/-- The scenario of C19: choosing `Boys` in the default state sets `gender`
and keeps the five keys and the other values. -/
theorem filters_five_keys_witness :
    (handleFilterChange getDefaultFilters.toObject "gender" "Boys").keys = validFilterKeys ∧
    (handleFilterChange getDefaultFilters.toObject "gender" "Boys").get "gender" =
      some "Boys" ∧
    (handleFilterChange getDefaultFilters.toObject "gender" "Boys").get "rating" =
      some "" :=
  ⟨(filters_five_keys.2.2.2.1 getDefaultFilters.toObject "gender" "Boys" (List.Perm.refl _)
      (by decide)).1,
    (filters_five_keys.2.2.2.1 getDefaultFilters.toObject "gender" "Boys" (List.Perm.refl _)
      (by decide)).2.2.2.1,
    ((filters_five_keys.2.2.2.1 getDefaultFilters.toObject "gender" "Boys" (List.Perm.refl _)
      (by decide)).2.2.2.2 "rating" (by decide)).trans (by decide)⟩

/-! ## The pagination controls: lemmas and the claim -/

/-- The window of `getPageNumbers` is a non-empty run `first..last` inside
`[1, totalPages]` that contains the current page. -/
theorem getPageNumbers_shape (total current : ℤ) (h1 : 1 ≤ current) (h2 : current ≤ total) :
    ∃ first last : ℤ, getPageNumbers total current = pushPages first last ∧
      1 ≤ first ∧ first ≤ current ∧ current ≤ last ∧ last ≤ total := by
  obtain ⟨hsmall, hlow, hmid, hhigh⟩ := getPageNumbers_cases total current h1 h2
  by_cases h5 : total ≤ 5
  · exact ⟨1, total, hsmall h5, le_rfl, h1, h2, le_rfl⟩
  · have h5' : 5 < total := by omega
    by_cases hc2 : current ≤ 2
    · exact ⟨1, 1 + 4, hlow h5' hc2, le_rfl, h1, by omega, by omega⟩
    · by_cases hc : current ≤ total - 2
      · exact ⟨current - 2, current - 2 + 4, hmid h5' (by omega) hc, by omega, by omega,
          by omega, by omega⟩
      · exact ⟨total - 4, total - 4 + 4, hhigh h5' (by omega), by omega, by omega,
          by omega, by omega⟩

theorem pushPages_head (first last : ℤ) (h : first ≤ last) :
    (pushPages first last)[0]? = some first := by
  have hpos : 0 < (last + 1 - first).toNat := by omega
  simp [pushPages, hpos]

theorem pushPages_last (first last : ℤ) (h : first ≤ last) :
    (pushPages first last)[(pushPages first last).length - 1]? = some last := by
  have hpos : 0 < (last + 1 - first).toNat := by omega
  rw [pushPages_length]
  simp only [pushPages, List.getElem?_map]
  rw [List.getElem?_range (by omega)]
  simp only [Option.map_some', Option.some.injEq]
  omega

/-- C21 (counterexample). With 10 pages and current page 4 the window is
`[2..6]`: page 1 is not in it and the first-page shortcut is shown, but no
ellipsis; with current page 7 the window is `[5..9]`: page 10 is not in it and
the last-page shortcut is shown, but no ellipsis. -/
theorem paginationControls_no_ellipsis :
    (1 : ℤ) ∉ getPageNumbers 10 4 ∧
    paginationControls 10 4 =
      some { firstShortcut := true, firstEllipsis := false, pageButtons := [2, 3, 4, 5, 6],
             lastEllipsis := true, lastShortcut := true } ∧
    (10 : ℤ) ∉ getPageNumbers 10 7 ∧
    paginationControls 10 7 =
      some { firstShortcut := true, firstEllipsis := true, pageButtons := [5, 6, 7, 8, 9],
             lastEllipsis := false, lastShortcut := true } := by
  refine ⟨?_, ?_, ?_, ?_⟩ <;> decide!

/-- C21 (amended). When the controls are shown (`totalPages > 1`) the page
buttons are the numbers of `getPageNumbers`; the first-page shortcut is shown
exactly when page 1 is not among them, and an ellipsis follows it exactly when
page 2 is not among them either; the last-page shortcut is shown exactly when
the last page is not among them, and an ellipsis precedes it exactly when the
page before the last is not among them either. -/
theorem paginationControls_spec (total current : ℤ) (hT : 1 < total) (h1 : 1 ≤ current)
    (h2 : current ≤ total) :
    ∃ c : PaginationControls, paginationControls total current = some c ∧
      c.pageButtons = getPageNumbers total current ∧
      (c.firstShortcut = true ↔ (1 : ℤ) ∉ getPageNumbers total current) ∧
      (c.firstEllipsis = true ↔
        (1 : ℤ) ∉ getPageNumbers total current ∧ (2 : ℤ) ∉ getPageNumbers total current) ∧
      (c.lastShortcut = true ↔ total ∉ getPageNumbers total current) ∧
      (c.lastEllipsis = true ↔
        total ∉ getPageNumbers total current ∧ total - 1 ∉ getPageNumbers total current) := by
  obtain ⟨first, last, heq, hf, hfc, hcl, hl⟩ := getPageNumbers_shape total current h1 h2
  have hfl : first ≤ last := le_trans hfc hcl
  refine ⟨_, if_pos hT, rfl, ?_, ?_, ?_, ?_⟩
  all_goals
    simp only [heq, pushPages_head first last hfl, pushPages_last first last hfl, elementGt,
      elementLt, mem_pushPages, Bool.and_eq_true, decide_eq_true_eq]
    omega

/-- The scenario of C21 (amended): 10 pages, current page 5, window `[3..7]`:
both shortcuts and both ellipses are shown. -/
theorem paginationControls_spec_witness :
    ∃ c : PaginationControls, paginationControls 10 5 = some c ∧
      c.pageButtons = getPageNumbers 10 5 ∧
      (c.firstShortcut = true ↔ (1 : ℤ) ∉ getPageNumbers 10 5) ∧
      (c.firstEllipsis = true ↔
        (1 : ℤ) ∉ getPageNumbers 10 5 ∧ (2 : ℤ) ∉ getPageNumbers 10 5) ∧
      (c.lastShortcut = true ↔ (10 : ℤ) ∉ getPageNumbers 10 5) ∧
      (c.lastEllipsis = true ↔
        (10 : ℤ) ∉ getPageNumbers 10 5 ∧ (10 : ℤ) - 1 ∉ getPageNumbers 10 5) :=
  paginationControls_spec 10 5 (by decide) (by decide) (by decide)

/-! ## The comparator on ties: lemmas and the claim -/

theorem stringLt_irrefl (l : List ℕ) : stringLt l l = false := by
  induction l with
  | nil => rfl
  | cons a as ih => simp [stringLt, ih]

theorem SortValue.lt_irrefl (v : SortValue) : v.lt v = false := by
  cases v with
  | num q => simp [SortValue.lt]
  | str s => simp [SortValue.lt, stringLt_irrefl]

/-- C22 (counterexample). Two records with the same rating: the comparator
returns `-1`, which is not the positive result, in both orders; the same for a
record compared with itself. -/
theorem compareSchools_tie_negative :
    schoolDehradun.rating = schoolSameRating.rating ∧
    compareSchools asciiLowerCase "rating" "desc" schoolDehradun schoolSameRating = -1 ∧
    compareSchools asciiLowerCase "rating" "asc" schoolDehradun schoolSameRating = -1 ∧
    compareSchools asciiLowerCase "rating" "desc" schoolDehradun schoolDehradun = -1 ∧
    ¬ (0 < compareSchools asciiLowerCase "rating" "desc" schoolDehradun schoolSameRating) := by
  refine ⟨rfl, ?_, ?_, ?_, ?_⟩ <;> decide!

/-- C22 (amended). For every sort key and every order, when two records have
equal sort keys the comparator returns `-1` (the negative result, which places
`a` before `b`), also for a record compared with itself; it never returns `0`:
its result is `1` or `-1` for every pair. -/
theorem compareSchools_tie (toLowerCase : String → String) (sortBy sortOrder : String)
    (a b : School) :
    (sortValue toLowerCase sortBy a = sortValue toLowerCase sortBy b →
        compareSchools toLowerCase sortBy sortOrder a b = -1) ∧
      compareSchools toLowerCase sortBy sortOrder a a = -1 ∧
      compareSchools toLowerCase sortBy sortOrder a b ≠ 0 ∧
      (compareSchools toLowerCase sortBy sortOrder a b = 1 ∨
        compareSchools toLowerCase sortBy sortOrder a b = -1) := by
  have hself : ∀ v w : SortValue, v = w →
      (if sortOrder = "asc" then (if v.gt w then (1 : ℤ) else -1)
        else (if v.lt w then (1 : ℤ) else -1)) = -1 := by
    rintro v w rfl
    simp [SortValue.gt, SortValue.lt_irrefl]
  refine ⟨fun h => hself _ _ h, hself _ _ rfl, ?_, ?_⟩
  · unfold compareSchools
    dsimp only
    split_ifs <;> decide
  · unfold compareSchools
    dsimp only
    split_ifs <;> simp

/-- The scenario of C22 (amended): two records whose names differ in letter
case only have equal `name` keys, and the comparator returns `-1`. -/
theorem compareSchools_tie_witness :
    sortValue asciiLowerCase "name" schoolDehradun =
      sortValue asciiLowerCase "name" { schoolDehradun with name := "VALLEY PUBLIC SCHOOL" } ∧
    compareSchools asciiLowerCase "name" "asc" schoolDehradun
      { schoolDehradun with name := "VALLEY PUBLIC SCHOOL" } = -1 :=
  ⟨by decide,
    (compareSchools_tie asciiLowerCase "name" "asc" schoolDehradun
      { schoolDehradun with name := "VALLEY PUBLIC SCHOOL" }).1 (by decide)⟩

/-! ## The state of the list view: the claims -/

/-- C23. After every step of the list view in which the `schools` array, the
sort key or the sort order differs from before, the current page is 1,
whatever it was; in particular this holds whenever the records differ, since
an array that is not mutated has different records only if it is a different
array. -/
theorem viewStep_resets_page (toLowerCase : String → String) (s : ViewState) (e : ViewEvent) :
    ((viewStep toLowerCase s e).schools.ref ≠ s.schools.ref ∨
        (viewStep toLowerCase s e).sortBy ≠ s.sortBy ∨
        (viewStep toLowerCase s e).sortOrder ≠ s.sortOrder →
      (viewStep toLowerCase s e).currentPage = 1) ∧
    (((viewStep toLowerCase s e).schools.ref = s.schools.ref →
        (viewStep toLowerCase s e).schools.items = s.schools.items) →
      (viewStep toLowerCase s e).schools.items ≠ s.schools.items →
      (viewStep toLowerCase s e).currentPage = 1) := by
  have hkeep : (viewStep toLowerCase s e).schools = (handleEvent toLowerCase s e).schools ∧
      (viewStep toLowerCase s e).sortBy = (handleEvent toLowerCase s e).sortBy ∧
      (viewStep toLowerCase s e).sortOrder = (handleEvent toLowerCase s e).sortOrder := by
    unfold viewStep resetPageEffect
    split_ifs <;> exact ⟨rfl, rfl, rfl⟩
  have hmain : (viewStep toLowerCase s e).schools.ref ≠ s.schools.ref ∨
      (viewStep toLowerCase s e).sortBy ≠ s.sortBy ∨
      (viewStep toLowerCase s e).sortOrder ≠ s.sortOrder →
      (viewStep toLowerCase s e).currentPage = 1 := by
    intro h
    rw [hkeep.1, hkeep.2.1, hkeep.2.2] at h
    unfold viewStep resetPageEffect
    rw [if_pos h]
  refine ⟨hmain, ?_⟩
  intro himm hitems
  apply hmain
  left
  intro href
  exact hitems (himm href)

/-- The scenario of C23: on page 2 of thirteen records, choosing the key
`name`, pressing the order button, or receiving another array each lead to
page 1. -/
theorem viewStep_resets_page_witness :
    (viewStep asciiLowerCase
      { schools := ⟨0, thirteenSchools⟩, sortBy := "rating", sortOrder := "desc",
        currentPage := 2 } (ViewEvent.sortChange "name")).currentPage = 1 ∧
    (viewStep asciiLowerCase
      { schools := ⟨0, thirteenSchools⟩, sortBy := "rating", sortOrder := "desc",
        currentPage := 2 } ViewEvent.toggleOrder).currentPage = 1 ∧
    (viewStep asciiLowerCase
      { schools := ⟨0, thirteenSchools⟩, sortBy := "rating", sortOrder := "desc",
        currentPage := 2 } (ViewEvent.receiveSchools ⟨1, [schoolDehradun]⟩)).currentPage = 1 :=
  ⟨(viewStep_resets_page asciiLowerCase _ (ViewEvent.sortChange "name")).1
      (Or.inr (Or.inl (by decide))),
    (viewStep_resets_page asciiLowerCase _ ViewEvent.toggleOrder).1
      (Or.inr (Or.inr (by decide))),
    (viewStep_resets_page asciiLowerCase _ (ViewEvent.receiveSchools ⟨1, [schoolDehradun]⟩)).2
      (fun h => absurd h (by decide)) (by decide)⟩

/-- C24. `handleSortChange(k)` with `k` the current key keeps the key and
toggles the order between `asc` and `desc`, so two calls restore the sort
spec; with another `k` the key becomes `k` and the order `desc`, whatever the
order was.  The initial sort spec is key `rating`, order `desc`. -/
theorem handleSortChange_spec (sortBy sortOrder k : String) :
    (k = sortBy →
        (handleSortChange sortBy sortOrder k).1 = sortBy ∧
        (sortOrder = "asc" → (handleSortChange sortBy sortOrder k).2 = "desc") ∧
        (sortOrder = "desc" → (handleSortChange sortBy sortOrder k).2 = "asc") ∧
        (sortOrder = "asc" ∨ sortOrder = "desc" →
          handleSortChange (handleSortChange sortBy sortOrder k).1
            (handleSortChange sortBy sortOrder k).2 k = (sortBy, sortOrder))) ∧
      (k ≠ sortBy → handleSortChange sortBy sortOrder k = (k, "desc")) ∧
      (∀ schools : SchoolsProp,
        (initialView schools).sortBy = "rating" ∧ (initialView schools).sortOrder = "desc") := by
  refine ⟨?_, ?_, fun _ => ⟨rfl, rfl⟩⟩
  · rintro rfl
    refine ⟨by simp [handleSortChange], ?_, ?_, ?_⟩
    · rintro rfl
      simp [handleSortChange]
    · rintro rfl
      have hne : ¬ ("desc" = "asc") := by decide
      simp [handleSortChange, hne]
    · rintro (rfl | rfl)
      · have hne : ¬ ("desc" = "asc") := by decide
        simp [handleSortChange, hne]
      · have hne : ¬ ("desc" = "asc") := by decide
        simp [handleSortChange, hne]
  · intro hk
    have hk' : ¬ (sortBy = k) := fun h => hk h.symm
    simp [handleSortChange, hk']

/-- The scenario of C24 from the initial sort spec: choosing `rating` again
gives ascending order and then descending order again; choosing `name` from
ascending `rating` gives descending `name`. -/
theorem handleSortChange_spec_witness :
    handleSortChange "rating" "desc" "rating" = ("rating", "asc") ∧
    handleSortChange (handleSortChange "rating" "desc" "rating").1
      (handleSortChange "rating" "desc" "rating").2 "rating" = ("rating", "desc") ∧
    handleSortChange "rating" "asc" "name" = ("name", "desc") :=
  ⟨Prod.ext ((handleSortChange_spec "rating" "desc" "rating").1 rfl).1
      (((handleSortChange_spec "rating" "desc" "rating").1 rfl).2.2.1 rfl),
    ((handleSortChange_spec "rating" "desc" "rating").1 rfl).2.2.2 (Or.inr rfl),
    (handleSortChange_spec "rating" "asc" "name").2.1 (by decide)⟩

/-! ## The sort is a permutation: lemmas and the claim -/

theorem countAndMakeRun_perm {α : Type} (cmp : α → α → ℤ) (array : List α) :
    List.Perm (countAndMakeRun cmp array).2 array := by
  match array with
  | [] => exact List.Perm.refl _
  | [a] => exact List.Perm.refl _
  | a0 :: a1 :: rest =>
    simp only [countAndMakeRun]
    split_ifs
    · exact ((List.reverse_perm _).append_right _).trans
        (List.Perm.of_eq (List.take_append_drop _ _))
    · exact List.Perm.refl _

theorem insertPivot_perm {α : Type} (cmp : α → α → ℤ) (sorted : List α) (pivot : α) :
    List.Perm (insertPivot cmp sorted pivot) (pivot :: sorted) := by
  unfold insertPivot
  generalize insertionPoint cmp pivot sorted sorted.length 0 sorted.length = p
  have h : List.Perm (sorted.take p ++ pivot :: sorted.drop p)
      (pivot :: (sorted.take p ++ sorted.drop p)) := List.perm_middle
  rw [List.take_append_drop] at h
  exact h

theorem binaryInsertionSort_perm {α : Type} (cmp : α → α → ℤ) (sorted rest : List α) :
    List.Perm (binaryInsertionSort cmp sorted rest) (sorted ++ rest) := by
  induction rest generalizing sorted with
  | nil => simp [binaryInsertionSort]
  | cons pivot rest ih =>
    simp only [binaryInsertionSort]
    exact (ih _).trans (((insertPivot_perm cmp sorted pivot).append_right rest).trans
      List.perm_middle.symm)

/-- The sort returns a permutation of its input, whatever the comparator. -/
theorem arraySort_perm {α : Type} (cmp : α → α → ℤ) (array : List α) :
    List.Perm (arraySort cmp array) array := by
  unfold arraySort
  split_ifs
  · exact List.Perm.refl _
  · exact (binaryInsertionSort_perm cmp _ _).trans
      ((List.Perm.of_eq (List.take_append_drop _ _)).trans (countAndMakeRun_perm cmp array))

/-- C25. For every record list, key and order the output of `sortSchools` is a
permutation of the input: the same records with the same multiplicities and
the same length.  (`sortSchools` is a function of its input: the list passed
in is not modified.) -/
theorem sortSchools_perm (toLowerCase : String → String) (schools : List School)
    (sortBy sortOrder : String) :
    List.Perm (sortSchools toLowerCase schools sortBy sortOrder) schools ∧
      (sortSchools toLowerCase schools sortBy sortOrder).length = schools.length ∧
      (∀ r, (sortSchools toLowerCase schools sortBy sortOrder).count r = schools.count r) ∧
      (∀ r, r ∈ sortSchools toLowerCase schools sortBy sortOrder ↔ r ∈ schools) := by
  have h : List.Perm (sortSchools toLowerCase schools sortBy sortOrder) schools :=
    arraySort_perm _ schools
  exact ⟨h, h.length_eq, fun r => h.count_eq r, fun r => h.mem_iff⟩

/-! ## Fee buckets and the average fee: lemmas and the claims -/

/-- No number lies in two of the three buckets. -/
theorem buckets_exclusive (avg : JSNumber) :
    ¬ (avg.lt (JSNumber.fin 300000) = true ∧
        (avg.ge (JSNumber.fin 300000) && avg.le (JSNumber.fin 500000)) = true) ∧
      ¬ (avg.lt (JSNumber.fin 300000) = true ∧ avg.gt (JSNumber.fin 500000) = true) ∧
      ¬ ((avg.ge (JSNumber.fin 300000) && avg.le (JSNumber.fin 500000)) = true ∧
        avg.gt (JSNumber.fin 500000) = true) := by
  cases avg with
  | nan => simp [JSNumber.lt, JSNumber.le, JSNumber.ge, JSNumber.gt]
  | negInf => simp [JSNumber.lt, JSNumber.le, JSNumber.ge, JSNumber.gt]
  | posInf => simp [JSNumber.lt, JSNumber.le, JSNumber.ge, JSNumber.gt]
  | fin q =>
    simp only [JSNumber.lt, JSNumber.le, JSNumber.ge, JSNumber.gt, Bool.and_eq_true,
      decide_eq_true_eq]
    refine ⟨?_, ?_, ?_⟩
    · rintro ⟨h1, h2, _⟩
      linarith
    · rintro ⟨h1, h2⟩
      linarith
    · rintro ⟨⟨_, h1⟩, h2⟩
      linarith

theorem checkFeeRange_exclusive (text : String) :
    ¬ (checkFeeRange text "low" = true ∧ checkFeeRange text "medium" = true) ∧
      ¬ (checkFeeRange text "low" = true ∧ checkFeeRange text "high" = true) ∧
      ¬ (checkFeeRange text "medium" = true ∧ checkFeeRange text "high" = true) := by
  cases hp : parseFees text with
  | none => simp [checkFeeRange, hp]
  | some p =>
    obtain ⟨minFee, maxFee⟩ := p
    obtain ⟨hl, hm, hh, _⟩ := checkFeeRange_of_parse text minFee maxFee hp
    rw [hl, hm, hh]
    exact buckets_exclusive _

theorem matchesSchool_fee (toLowerCase : String → String) (q loc : String) (f : Filters)
    (token : String) (r : School) :
    matchesSchool toLowerCase q loc { f with feeRange := token } r =
      (matchesSchool toLowerCase q loc { f with feeRange := "" } r &&
        (decide (token = "") || checkFeeRange r.feeRange token)) := by
  simp only [matchesSchool, decide_True, Bool.true_or, Bool.and_true]
  ac_rfl

/-- A fee filter adds the condition of `checkFeeRange` to the other
constraints. -/
theorem mem_filterSchools_fee (toLowerCase : String → String) (schools : List School)
    (q loc : String) (f : Filters) (token : String) (r : School) :
    r ∈ filterSchools toLowerCase schools q loc { f with feeRange := token } ↔
      r ∈ filterSchools toLowerCase schools q loc { f with feeRange := "" } ∧
        (token = "" ∨ checkFeeRange r.feeRange token = true) := by
  simp only [filterSchools, List.mem_filter, matchesSchool_fee toLowerCase q loc f token r,
    Bool.and_eq_true, Bool.or_eq_true, decide_eq_true_eq, and_assoc]

/-- C26. For a fee text that parses into two amounts exactly one of the
filters `low`, `medium`, `high` matches; the three fee-filtered result lists
are pairwise disjoint, and a record with such a text is in one of them exactly
when it passes the other constraints. -/
theorem fee_buckets_partition (toLowerCase : String → String) (schools : List School)
    (q loc : String) (f : Filters) :
    (∀ (text : String) (low high : ℚ),
        parseFees text = some (JSNumber.fin low, JSNumber.fin high) →
        (checkFeeRange text "low" = true ∨ checkFeeRange text "medium" = true ∨
          checkFeeRange text "high" = true) ∧
        ¬ (checkFeeRange text "low" = true ∧ checkFeeRange text "medium" = true) ∧
        ¬ (checkFeeRange text "low" = true ∧ checkFeeRange text "high" = true) ∧
        ¬ (checkFeeRange text "medium" = true ∧ checkFeeRange text "high" = true)) ∧
      (List.Disjoint (filterSchools toLowerCase schools q loc { f with feeRange := "low" })
          (filterSchools toLowerCase schools q loc { f with feeRange := "medium" }) ∧
        List.Disjoint (filterSchools toLowerCase schools q loc { f with feeRange := "low" })
          (filterSchools toLowerCase schools q loc { f with feeRange := "high" }) ∧
        List.Disjoint (filterSchools toLowerCase schools q loc { f with feeRange := "medium" })
          (filterSchools toLowerCase schools q loc { f with feeRange := "high" })) ∧
      (∀ (r : School) (low high : ℚ),
        parseFees r.feeRange = some (JSNumber.fin low, JSNumber.fin high) →
        (r ∈ filterSchools toLowerCase schools q loc { f with feeRange := "" } ↔
          r ∈ filterSchools toLowerCase schools q loc { f with feeRange := "low" } ∨
          r ∈ filterSchools toLowerCase schools q loc { f with feeRange := "medium" } ∨
          r ∈ filterSchools toLowerCase schools q loc { f with feeRange := "high" })) := by
  have hone : ∀ (text : String) (low high : ℚ),
      parseFees text = some (JSNumber.fin low, JSNumber.fin high) →
      (checkFeeRange text "low" = true ∨ checkFeeRange text "medium" = true ∨
        checkFeeRange text "high" = true) := by
    intro text low high hp
    obtain ⟨hl, hm, hh⟩ := checkFeeRange_mean text low high hp
    by_cases h1 : (low + high) / 2 < 300000
    · exact Or.inl (hl.mpr h1)
    · by_cases h2 : (low + high) / 2 ≤ 500000
      · exact Or.inr (Or.inl (hm.mpr ⟨not_lt.mp h1, h2⟩))
      · exact Or.inr (Or.inr (hh.mpr (not_le.mp h2)))
  have hl : ¬ ("low" = "") := by decide
  have hm : ¬ ("medium" = "") := by decide
  have hh : ¬ ("high" = "") := by decide
  refine ⟨fun text low high hp => ⟨hone text low high hp, checkFeeRange_exclusive text⟩,
    ⟨?_, ?_, ?_⟩, ?_⟩
  · intro r h1 h2
    rw [mem_filterSchools_fee] at h1 h2
    exact (checkFeeRange_exclusive r.feeRange).1
      ⟨h1.2.resolve_left hl, h2.2.resolve_left hm⟩
  · intro r h1 h2
    rw [mem_filterSchools_fee] at h1 h2
    exact (checkFeeRange_exclusive r.feeRange).2.1
      ⟨h1.2.resolve_left hl, h2.2.resolve_left hh⟩
  · intro r h1 h2
    rw [mem_filterSchools_fee] at h1 h2
    exact (checkFeeRange_exclusive r.feeRange).2.2
      ⟨h1.2.resolve_left hm, h2.2.resolve_left hh⟩
  · intro r low high hp
    rw [mem_filterSchools_fee toLowerCase schools q loc f "low",
      mem_filterSchools_fee toLowerCase schools q loc f "medium",
      mem_filterSchools_fee toLowerCase schools q loc f "high"]
    constructor
    · intro hr
      rcases hone r.feeRange low high hp with h | h | h
      · exact Or.inl ⟨hr, Or.inr h⟩
      · exact Or.inr (Or.inl ⟨hr, Or.inr h⟩)
      · exact Or.inr (Or.inr ⟨hr, Or.inr h⟩)
    · rintro (h | h | h) <;> exact h.1

/-- The scenario of C26: the fee text with mean 250000 matches `low` and
neither `medium` nor `high`. -/
theorem fee_buckets_partition_witness :
    parseFees "₹2,00,000 - ₹3,00,000" = some (JSNumber.fin 200000, JSNumber.fin 300000) ∧
    checkFeeRange "₹2,00,000 - ₹3,00,000" "low" = true ∧
    ¬ (checkFeeRange "₹2,00,000 - ₹3,00,000" "low" = true ∧
      checkFeeRange "₹2,00,000 - ₹3,00,000" "medium" = true) ∧
    ¬ (checkFeeRange "₹2,00,000 - ₹3,00,000" "low" = true ∧
      checkFeeRange "₹2,00,000 - ₹3,00,000" "high" = true) :=
  ⟨by decide!, by decide!,
    ((fee_buckets_partition asciiLowerCase [] "" "" getDefaultFilters).1
      "₹2,00,000 - ₹3,00,000" 200000 300000 (by decide!)).2.1,
    ((fee_buckets_partition asciiLowerCase [] "" "" getDefaultFilters).1
      "₹2,00,000 - ₹3,00,000" 200000 300000 (by decide!)).2.2.1⟩

/-- C27 (the code at the failing input). The fee text `₹, - ₹5` holds fewer
than two amounts, and `checkFeeRange` returns true for it under the
unrecognised token `premium`: the two matches `₹,` and `₹5` pass the length
guard, the first is read as `NaN`, and the `default` branch answers true.  For
the text `On request`, with no match at all, it returns false. -/
theorem checkFeeRange_unknown_token_single_amount :
    "premium" ≠ "" ∧ "premium" ≠ "low" ∧ "premium" ≠ "medium" ∧ "premium" ≠ "high" ∧
    (feeAmounts "₹, - ₹5").length < 2 ∧
    (feeMatch "₹, - ₹5").length = 2 ∧
    checkFeeRange "₹, - ₹5" "premium" = true ∧
    checkFeeRange "On request" "premium" = false := by
  refine ⟨?_, ?_, ?_, ?_, ?_, ?_, ?_, ?_⟩ <;> decide!

/-- C28 (the code at the failing input). The fee text `₹, - ₹5` holds fewer
than two amounts, and `getAverageFee` returns `NaN` for it, not `0`: the
matches `₹,` and `₹5` pass the length guard and the first is read as `NaN`.
For `On request` it returns `0`, and for `₹2,00,000 - ₹3,00,000` the mean
250000. -/
theorem getAverageFee_single_amount :
    feeAmounts "₹, - ₹5" = [5] ∧
    getAverageFee "₹, - ₹5" = JSNumber.nan ∧
    getAverageFee "₹, - ₹5" ≠ JSNumber.fin 0 ∧
    getAverageFee "On request" = JSNumber.fin 0 ∧
    getAverageFee "₹2,00,000 - ₹3,00,000" = JSNumber.fin 250000 := by
  refine ⟨?_, ?_, ?_, ?_, ?_⟩ <;> decide!

end SchoolFinder
